import Mathlib

/-!
# BMX6 `crypt.c`: key-type registry, DH key agreement, RSA identity, SHA-1 context, random expansion

A shallow embedding of `src/crypt.c`.  Pointers to byte buffers together with
their length argument are lists of bytes (`List Nat`, every byte `< 256`);
big integers (`mpi`) are natural numbers; the C scalar types are `Nat`/`Int`
with an explicit reduction where the width matters.  A call that ends in a
fatal assertion (`assertion`, `cleanup_all`) or in a memory fault is an explicit
outcome.  The loops bounded by the code itself are total functions; the loop of
`cryptRand`, whose `uint32_t` counter can wrap, runs on fuel.
-/

namespace Crypt

/-! ## Scalars and outcomes -/

/-- Conversion of a C `int` to `uint8_t`. -/
def u8 (x : Int) : Nat := (x % 256).toNat

/-- Conversion of a C `int` to `uint16_t`. -/
def u16 (x : Int) : Nat := (x % 65536).toNat

/-- The result of running a C function: it returns a value, it aborts the
process through a failed `assertion(code, ..)` or `cleanup_all(code)`, or it
dereferences a null pointer. -/
inductive Outcome (α : Type) where
  | ret (a : α) : Outcome α
  | fatal (code : Int) : Outcome α
  | segv : Outcome α
  deriving DecidableEq, Repr

/-- The value a call returned, when it returned. -/
def Outcome.value {α : Type} : Outcome α → Option α
  | .ret a => some a
  | _ => none

/-- The C macro `assertion(code, cond)`: abort with `code` unless `cond`. -/
def assertion {α : Type} (code : Int) (cond : Bool) (k : Outcome α) : Outcome α :=
  if cond then k else .fatal code

/-! ## Constants of `crypt.h` -/

/-- Modelled from the spec: `crypt.h` is not among the sources; the DH raw
lengths are the byte widths "128/256/384 bytes for 1024/2048/3072-bit groups". -/
def CRYPT_DHM1024_LEN : Nat := 1024 / 8

/-- Modelled from the spec: byte width of the 2048-bit DH group. -/
def CRYPT_DHM2048_LEN : Nat := 2048 / 8

/-- Modelled from the spec: byte width of the 3072-bit DH group. -/
def CRYPT_DHM3072_LEN : Nat := 3072 / 8

/-- Modelled from the spec: `crypt.h` is not among the sources; the RSA raw
lengths are the byte widths of "512…4096 in standard steps" ("64…512 bytes"). -/
def CRYPT_RSA512_LEN : Nat := 512 / 8

/-- Modelled from the spec: byte width of RSA-768. -/
def CRYPT_RSA768_LEN : Nat := 768 / 8

/-- Modelled from the spec: byte width of RSA-896. -/
def CRYPT_RSA896_LEN : Nat := 896 / 8

/-- Modelled from the spec: byte width of RSA-1024. -/
def CRYPT_RSA1024_LEN : Nat := 1024 / 8

/-- Modelled from the spec: byte width of RSA-1536. -/
def CRYPT_RSA1536_LEN : Nat := 1536 / 8

/-- Modelled from the spec: byte width of RSA-2048. -/
def CRYPT_RSA2048_LEN : Nat := 2048 / 8

/-- Modelled from the spec: byte width of RSA-3072. -/
def CRYPT_RSA3072_LEN : Nat := 3072 / 8

/-- Modelled from the spec: byte width of RSA-4096. -/
def CRYPT_RSA4096_LEN : Nat := 4096 / 8

/-- The remaining macros of `crypt.h`, which is not among the sources and whose
values the spec does not give: the type tags, the type names and the size of
the local secret buffer.  They are parameters of the embedding. -/
structure CryptHdr where
  CRYPT_DHM1024_TYPE : Int
  CRYPT_DHM2048_TYPE : Int
  CRYPT_DHM3072_TYPE : Int
  CRYPT_DHM1024_NAME : String
  CRYPT_DHM2048_NAME : String
  CRYPT_DHM3072_NAME : String
  CRYPT_DHM_MAX_LEN : Nat
  CRYPT_RSA512_TYPE : Int
  CRYPT_RSA768_TYPE : Int
  CRYPT_RSA896_TYPE : Int
  CRYPT_RSA1024_TYPE : Int
  CRYPT_RSA1536_TYPE : Int
  CRYPT_RSA2048_TYPE : Int
  CRYPT_RSA3072_TYPE : Int
  CRYPT_RSA4096_TYPE : Int
  CRYPT_RSA512_NAME : String
  CRYPT_RSA768_NAME : String
  CRYPT_RSA896_NAME : String
  CRYPT_RSA1024_NAME : String
  CRYPT_RSA1536_NAME : String
  CRYPT_RSA2048_NAME : String
  CRYPT_RSA3072_NAME : String
  CRYPT_RSA4096_NAME : String

/-! ## Key-type registry -/

/-- `uint8_t cryptDhmKeyTypeByLen(int len)`. -/
def cryptDhmKeyTypeByLen (h : CryptHdr) (len : Int) : Nat :=
  u8 (if len = CRYPT_DHM1024_LEN then h.CRYPT_DHM1024_TYPE
      else if len = CRYPT_DHM2048_LEN then h.CRYPT_DHM2048_TYPE
      else if len = CRYPT_DHM3072_LEN then h.CRYPT_DHM3072_TYPE
      else 0)

/-- `uint16_t cryptDhmKeyLenByType(int type)`. -/
def cryptDhmKeyLenByType (h : CryptHdr) (type : Int) : Nat :=
  u16 (if type = h.CRYPT_DHM1024_TYPE then CRYPT_DHM1024_LEN
       else if type = h.CRYPT_DHM2048_TYPE then CRYPT_DHM2048_LEN
       else if type = h.CRYPT_DHM3072_TYPE then CRYPT_DHM3072_LEN
       else 0)

/-- `char *cryptDhmKeyTypeAsString(int type)`; `none` is `NULL`. -/
def cryptDhmKeyTypeAsString (h : CryptHdr) (type : Int) : Option String :=
  if type = h.CRYPT_DHM1024_TYPE then some h.CRYPT_DHM1024_NAME
  else if type = h.CRYPT_DHM2048_TYPE then some h.CRYPT_DHM2048_NAME
  else if type = h.CRYPT_DHM3072_TYPE then some h.CRYPT_DHM3072_NAME
  else none

/-- `uint8_t cryptRsaKeyTypeByLen(int len)`. -/
def cryptRsaKeyTypeByLen (h : CryptHdr) (len : Int) : Nat :=
  u8 (if len = CRYPT_RSA512_LEN then h.CRYPT_RSA512_TYPE
      else if len = CRYPT_RSA768_LEN then h.CRYPT_RSA768_TYPE
      else if len = CRYPT_RSA896_LEN then h.CRYPT_RSA896_TYPE
      else if len = CRYPT_RSA1024_LEN then h.CRYPT_RSA1024_TYPE
      else if len = CRYPT_RSA1536_LEN then h.CRYPT_RSA1536_TYPE
      else if len = CRYPT_RSA2048_LEN then h.CRYPT_RSA2048_TYPE
      else if len = CRYPT_RSA3072_LEN then h.CRYPT_RSA3072_TYPE
      else if len = CRYPT_RSA4096_LEN then h.CRYPT_RSA4096_TYPE
      else 0)

/-- `uint16_t cryptRsaKeyLenByType(int type)`. -/
def cryptRsaKeyLenByType (h : CryptHdr) (type : Int) : Nat :=
  u16 (if type = h.CRYPT_RSA512_TYPE then CRYPT_RSA512_LEN
       else if type = h.CRYPT_RSA768_TYPE then CRYPT_RSA768_LEN
       else if type = h.CRYPT_RSA896_TYPE then CRYPT_RSA896_LEN
       else if type = h.CRYPT_RSA1024_TYPE then CRYPT_RSA1024_LEN
       else if type = h.CRYPT_RSA1536_TYPE then CRYPT_RSA1536_LEN
       else if type = h.CRYPT_RSA2048_TYPE then CRYPT_RSA2048_LEN
       else if type = h.CRYPT_RSA3072_TYPE then CRYPT_RSA3072_LEN
       else if type = h.CRYPT_RSA4096_TYPE then CRYPT_RSA4096_LEN
       else 0)

/-- `char *cryptRsaKeyTypeAsString(int type)`; `none` is `NULL`. -/
def cryptRsaKeyTypeAsString (h : CryptHdr) (type : Int) : Option String :=
  if type = h.CRYPT_RSA512_TYPE then some h.CRYPT_RSA512_NAME
  else if type = h.CRYPT_RSA768_TYPE then some h.CRYPT_RSA768_NAME
  else if type = h.CRYPT_RSA896_TYPE then some h.CRYPT_RSA896_NAME
  else if type = h.CRYPT_RSA1024_TYPE then some h.CRYPT_RSA1024_NAME
  else if type = h.CRYPT_RSA1536_TYPE then some h.CRYPT_RSA1536_NAME
  else if type = h.CRYPT_RSA2048_TYPE then some h.CRYPT_RSA2048_NAME
  else if type = h.CRYPT_RSA3072_TYPE then some h.CRYPT_RSA3072_NAME
  else if type = h.CRYPT_RSA4096_TYPE then some h.CRYPT_RSA4096_NAME
  else none

/-- The type tags of the DH family. -/
def dhmTypes (h : CryptHdr) : List Int :=
  [h.CRYPT_DHM1024_TYPE, h.CRYPT_DHM2048_TYPE, h.CRYPT_DHM3072_TYPE]

/-- The byte lengths of the DH family. -/
def dhmLens : List Int :=
  [CRYPT_DHM1024_LEN, CRYPT_DHM2048_LEN, CRYPT_DHM3072_LEN]

/-- The type tags of the RSA family. -/
def rsaTypes (h : CryptHdr) : List Int :=
  [h.CRYPT_RSA512_TYPE, h.CRYPT_RSA768_TYPE, h.CRYPT_RSA896_TYPE, h.CRYPT_RSA1024_TYPE,
   h.CRYPT_RSA1536_TYPE, h.CRYPT_RSA2048_TYPE, h.CRYPT_RSA3072_TYPE, h.CRYPT_RSA4096_TYPE]

/-- The byte lengths of the RSA family. -/
def rsaLens : List Int :=
  [CRYPT_RSA512_LEN, CRYPT_RSA768_LEN, CRYPT_RSA896_LEN, CRYPT_RSA1024_LEN,
   CRYPT_RSA1536_LEN, CRYPT_RSA2048_LEN, CRYPT_RSA3072_LEN, CRYPT_RSA4096_LEN]

/-- A header instance used to evaluate the embedding: RSA tags 1..8, DH tags 16..18. -/
def sampleHdr : CryptHdr where
  CRYPT_DHM1024_TYPE := 16
  CRYPT_DHM2048_TYPE := 17
  CRYPT_DHM3072_TYPE := 18
  CRYPT_DHM1024_NAME := "DH1024"
  CRYPT_DHM2048_NAME := "DH2048"
  CRYPT_DHM3072_NAME := "DH3072"
  CRYPT_DHM_MAX_LEN := 384
  CRYPT_RSA512_TYPE := 1
  CRYPT_RSA768_TYPE := 2
  CRYPT_RSA896_TYPE := 3
  CRYPT_RSA1024_TYPE := 4
  CRYPT_RSA1536_TYPE := 5
  CRYPT_RSA2048_TYPE := 6
  CRYPT_RSA3072_TYPE := 7
  CRYPT_RSA4096_TYPE := 8
  CRYPT_RSA512_NAME := "RSA512"
  CRYPT_RSA768_NAME := "RSA768"
  CRYPT_RSA896_NAME := "RSA896"
  CRYPT_RSA1024_NAME := "RSA1024"
  CRYPT_RSA1536_NAME := "RSA1536"
  CRYPT_RSA2048_NAME := "RSA2048"
  CRYPT_RSA3072_NAME := "RSA3072"
  CRYPT_RSA4096_NAME := "RSA4096"

/-! ## Backend: big integers, SHA-1, random numbers (PolarSSL) -/

/-- `CRYPTSHA1_T`: a 160-bit digest, twenty bytes. -/
structure CRYPTSHA1_T where
  bytes : List Nat
  size_eq : bytes.length = 20
  deriving DecidableEq, Repr

/-- The part of the PolarSSL backend that is data: the SHA-1 transform as a
function of the hashed byte stream, the group parameters the macros
`POLARSSL_DHM_*_P`/`_G` spell in hexadecimal, and `ENTROPY_BLOCK_SIZE`. -/
structure Polarssl where
  sha1 : List Nat → CRYPTSHA1_T
  POLARSSL_DHM_RFC5114_MODP_1024_P : Nat
  POLARSSL_DHM_RFC5114_MODP_1024_G : Nat
  POLARSSL_DHM_RFC3526_MODP_2048_P : Nat
  POLARSSL_DHM_RFC3526_MODP_2048_G : Nat
  POLARSSL_DHM_RFC3526_MODP_3072_P : Nat
  POLARSSL_DHM_RFC3526_MODP_3072_G : Nat
  ENTROPY_BLOCK_SIZE : Nat

/-- Number of base-256 digits of `n`, by at most `fuel` divisions. -/
def mpiSizeAux : Nat → Nat → Nat
  | 0, _ => 0
  | fuel + 1, n => if n = 0 then 0 else 1 + mpiSizeAux fuel (n / 256)

/-- `mpi_size`: the number of bytes of a big integer (0 for 0). -/
def mpi_size (n : Nat) : Nat := mpiSizeAux n n

/-- Big-endian writing of `x` into exactly `len` bytes (the low `len` bytes). -/
def beBytes : Nat → Nat → List Nat
  | 0, _ => []
  | len + 1, x => beBytes len (x / 256) ++ [x % 256]

/-- `mpi_write_binary(X, buf, buflen)`: fails when the buffer is too small,
otherwise fills the whole buffer, big-endian and zero-padded on the left. -/
def mpi_write_binary (X : Nat) (buflen : Nat) : Option (List Nat) :=
  if buflen < mpi_size X then none else some (beBytes buflen X)

/-- `mpi_read_binary(X, buf, buflen)`: the big-endian value of the bytes. -/
def mpi_read_binary (buf : List Nat) : Nat :=
  buf.foldl (fun acc byte => acc * 256 + byte % 256) 0

/-- Square and multiply: `acc * b ^ e` modulo `m`, by at most `fuel` halvings of `e`. -/
def powModAux : Nat → Nat → Nat → Nat → Nat → Nat
  | 0, _, _, _, acc => acc
  | fuel + 1, b, e, m, acc =>
    if e = 0 then acc
    else powModAux fuel (b * b % m) (e / 2) m (if e % 2 = 1 then acc * b % m else acc)

/-- `mpi_exp_mod(X, A, E, N, _RR)`: `A ^ E mod N` by square and multiply; the
backend rejects an even modulus. -/
def mpi_exp_mod (A E N : Nat) : Option Nat :=
  if N % 2 = 0 then none else some (powModAux (E + 1) (A % N) E N (1 % N))

/-- `mpi_fill_random(X, size, ctr_drbg_random, &ctr_drbg)`: the deterministic
random bit generator is an oracle `rng`; its `pos`-th request either fails or
yields a number, of which `size` bytes are kept. -/
def mpi_fill_random (rng : Nat → Option Nat) (size : Nat) (pos : Nat) : Option Nat :=
  (rng pos).map (fun r => r % 256 ^ size)

/-- The backend state of a DH pair (`dhm_context`): modulus length, modulus,
generator, private exponent, own public value, peer public value, shared value. -/
structure dhm_context where
  len : Nat
  P : Nat
  G : Nat
  X : Nat
  GX : Nat
  GY : Nat
  K : Nat
  deriving DecidableEq, Repr

/-- `CRYPTDHM_T`: a DH pair handle; `backendKey = none` is a null backend pointer. -/
structure CRYPTDHM_T where
  backendKey : Option dhm_context
  rawGXType : Nat
  rawGXLen : Nat
  deriving DecidableEq, Repr

/-! ## SHA-1 context -/

/-- The process-wide digest state: the flag `shaClean` and the backend context
`sha_ctx`, modelled as the byte stream accumulated since `sha1_starts`. -/
structure ShaState where
  shaClean : Bool
  sha_ctx : List Nat
  deriving DecidableEq, Repr

/-- `sha1_starts`: an empty stream. -/
def sha1_starts : List Nat := []

/-- `sha1_update(ctx, in, len)`: the stream grows by the input. -/
def sha1_update (ctx : List Nat) (input : List Nat) : List Nat := ctx ++ input

/-- `sha1_finish(ctx, out)`: the digest of the accumulated stream. -/
def sha1_finish (b : Polarssl) (ctx : List Nat) : CRYPTSHA1_T := b.sha1 ctx

/-- The C macro `assertion(code, cond)` in a function with state: when `cond`
fails the process aborts with `code` in the state `st` reached so far. -/
def assertionSt {α σ : Type} (code : Int) (cond : Bool) (st : σ)
    (k : Outcome α × σ) : Outcome α × σ :=
  if cond then k else (.fatal code, st)

/-- `cryptShaInit`. -/
def cryptShaInit (st : ShaState) : ShaState := { st with shaClean := true }

/-- `cryptShaAtomic(in, len, sha)`; `input` is the `len` bytes at `in`. -/
def cryptShaAtomic (b : Polarssl) (st : ShaState) (input : List Nat) :
    Outcome CRYPTSHA1_T × ShaState :=
  assertionSt (-502030) (st.shaClean == true) st <|
  assertionSt (-502032) (decide (0 < input.length)) st <|
    let ctx := sha1_update sha1_starts input
    (.ret (sha1_finish b ctx), { st with sha_ctx := [] })

/-- `cryptShaNew(in, len)`. -/
def cryptShaNew (st : ShaState) (input : List Nat) : Outcome Unit × ShaState :=
  assertionSt (-502033) (st.shaClean == true) st <|
  assertionSt (-502034) (decide (0 < input.length)) st <|
    (.ret (), { shaClean := false, sha_ctx := sha1_update sha1_starts input })

/-- `cryptShaUpdate(in, len)`. -/
def cryptShaUpdate (st : ShaState) (input : List Nat) : Outcome Unit × ShaState :=
  assertionSt (-502035) (st.shaClean == false) st <|
  assertionSt (-502036) (decide (0 < input.length)) st <|
    (.ret (), { st with sha_ctx := sha1_update st.sha_ctx input })

/-- `cryptShaFinal(sha)`. -/
def cryptShaFinal (b : Polarssl) (st : ShaState) : Outcome CRYPTSHA1_T × ShaState :=
  assertionSt (-502037) (st.shaClean == false) st <|
    (.ret (sha1_finish b st.sha_ctx), { shaClean := true, sha_ctx := [] })

/-- The calls `cryptShaNew(data[0:n]); cryptShaUpdate(data[n:]); cryptShaFinal()`
in sequence; a call that aborts ends the run. -/
def shaSplit (b : Polarssl) (st : ShaState) (data : List Nat) (n : Nat) :
    Outcome CRYPTSHA1_T × ShaState :=
  match cryptShaNew st (data.take n) with
  | (.ret (), st1) =>
    match cryptShaUpdate st1 (data.drop n) with
    | (.ret (), st2) => cryptShaFinal b st2
    | (.fatal code, st2) => (.fatal code, st2)
    | (.segv, st2) => (.segv, st2)
  | (.fatal code, st1) => (.fatal code, st1)
  | (.segv, st1) => (.segv, st1)

/-! ## Diffie-Hellman key agreement -/

/-- `_cryptDhmCheckRange(param, P)`: `true` is `SUCCESS`, that is
`2 <= param <= P - 2` (`L = 2`, `U = P - 2` as signed big integers). -/
def _cryptDhmCheckRange (param P : Nat) : Bool :=
  decide ((param : Int) ≥ 2) && decide ((param : Int) ≤ (P : Int) - 2)

/-- The inner loop `while (mpi_cmp_mpi(X, P) >= 0) mpi_shift_r(X, 1)`, run for
at most `fuel` shifts (`sampleX` gives it more shifts than `X` has bits). -/
def shiftBelow : Nat → Nat → Nat → Nat
  | 0, X, _ => X
  | fuel + 1, X, P => if X ≥ P then shiftBelow fuel (X / 2) P else X

/-- The sampling loop `do { .. } while (_cryptDhmCheckRange(X, P) != SUCCESS)`
of `cryptDhmKeyMake`.  `left` is `11 - count`: the test `count++ > 10` lets
eleven draws through and fails the twelfth.  The result is the error label or
the accepted `X`, with the position of the random oracle after the draws. -/
def sampleX (rng : Nat → Option Nat) (P pSize : Nat) :
    Nat → Nat → Except String Nat × Nat
  | left, pos =>
    match mpi_fill_random rng pSize pos with
    | none => (.error "Failed allocating randomness", pos + 1)
    | some X0 =>
      let X := shiftBelow (X0 + 1) X0 P
      match left with
      | 0 => (.error "Failed creating dhm->X param", pos + 1)
      | left + 1 =>
        if _cryptDhmCheckRange X P then (.ok X, pos + 1)
        else sampleX rng P pSize left (pos + 1)

/-- The `if / else if` chain of `cryptDhmKeyMake` that selects `pptr` and `gptr`. -/
def dhmGroup (h : CryptHdr) (b : Polarssl) (keyType : Nat) : Option (Nat × Nat) :=
  if (keyType : Int) = h.CRYPT_DHM1024_TYPE then
    some (b.POLARSSL_DHM_RFC5114_MODP_1024_P, b.POLARSSL_DHM_RFC5114_MODP_1024_G)
  else if (keyType : Int) = h.CRYPT_DHM2048_TYPE then
    some (b.POLARSSL_DHM_RFC3526_MODP_2048_P, b.POLARSSL_DHM_RFC3526_MODP_2048_G)
  else if (keyType : Int) = h.CRYPT_DHM3072_TYPE then
    some (b.POLARSSL_DHM_RFC3526_MODP_3072_P, b.POLARSSL_DHM_RFC3526_MODP_3072_G)
  else none

/-- One pass through the body of `cryptDhmKeyMake` up to the label `finish`:
the error label (`goto_error_code`) or the finished key, with the position of
the random oracle. -/
def cryptDhmKeyMakeTry (h : CryptHdr) (b : Polarssl) (rng : Nat → Option Nat)
    (keyType : Nat) (pos : Nat) : Except String CRYPTDHM_T × Nat :=
  if keyType = 0 then (.error "Missing type", pos) else
  let keyLen := cryptDhmKeyLenByType h keyType
  if keyLen ≤ 0 then (.error "Invalid size", pos) else
  match dhmGroup h b keyType with
  | none => (.error "Unsupported dhm type!", pos)
  | some (P, G) =>
    if P = 0 then (.error "Empty dhm->P", pos) else
    let pSize := mpi_size P
    if pSize ≠ keyLen then (.error "Invalid P size", pos) else
    match sampleX rng P pSize 11 pos with
    | (.error e, pos1) => (.error e, pos1)
    | (.ok X, pos1) =>
      match mpi_exp_mod G X P with
      | none => (.error "Failed creating GX modulo", pos1)
      | some GX =>
        let len := mpi_size P
        if len ≠ keyLen then (.error "Invalid len", pos1) else
        if mpi_size X ≠ keyLen then (.error "Invalid X size", pos1) else
        if mpi_size GX ≠ keyLen then (.error "Invalid GX size", pos1) else
        if _cryptDhmCheckRange GX P ≠ true then (.error "Invalid GX range", pos1) else
        (.ok { backendKey := some { len := len, P := P, G := G, X := X, GX := GX, GY := 0, K := 0 },
               rawGXType := keyType, rawGXLen := keyLen }, pos1)

/-- How many passes a call `cryptDhmKeyMake(keyType, attempt)` can make: the
`uint8_t` counter `++attempt` must stay below 10 for another pass. -/
def attemptsLeft (attempt : Nat) : Nat :=
  if attempt % 256 = 255 then 11 else 10 - attempt % 256

/-- The recursion of `cryptDhmKeyMake` on `attempt`, after the label `finish`:
a key is returned, an error frees it and either calls `cryptDhmKeyMake` again
with `++attempt` or reaches `assertion(-502718, 0)`.  `fuel` bounds the depth;
the proof argument shows it is never exhausted, so the function is total. -/
def cryptDhmKeyMakeRec (h : CryptHdr) (b : Polarssl) (rng : Nat → Option Nat) (keyType : Nat) :
    (fuel : Nat) → (attempt : Nat) → (pos : Nat) → attemptsLeft attempt ≤ fuel →
    Outcome (Option CRYPTDHM_T) × Nat
  | fuel, attempt, pos, hf =>
    match cryptDhmKeyMakeTry h b rng keyType pos with
    | (.ok key, pos1) => (.ret (some key), pos1)
    | (.error _, pos1) =>
      if hlt : (attempt + 1) % 256 < 10 then
        match fuel, hf with
        | 0, hf => absurd hlt (by unfold attemptsLeft at hf; split_ifs at hf <;> omega)
        | fuel + 1, hf =>
          cryptDhmKeyMakeRec h b rng keyType fuel ((attempt + 1) % 256) pos1
            (by unfold attemptsLeft at *; split_ifs at * <;> omega)
      else
        assertionSt (-502718) false pos1 (.ret none, pos1)

/-- `CRYPTDHM_T *cryptDhmKeyMake(uint8_t keyType, uint8_t attempt)`; `pos` is
the position of the random oracle before the call, the second component of the
result its position after. -/
def cryptDhmKeyMake (h : CryptHdr) (b : Polarssl) (rng : Nat → Option Nat)
    (keyType attempt : Nat) (pos : Nat) : Outcome (Option CRYPTDHM_T) × Nat :=
  cryptDhmKeyMakeRec h b rng keyType (attemptsLeft attempt) attempt pos (Nat.le_refl _)

/-- `cryptDhmPubKeyGetRaw(key, buff, buffLen)`: the content of `buff` afterwards. -/
def cryptDhmPubKeyGetRaw (key : Option CRYPTDHM_T) (buffLen : Nat) : Outcome (List Nat) :=
  match key with
  | none => .fatal (-502719)
  | some key =>
    assertion (-502719) (buffLen != 0 && key.rawGXType != 0 && buffLen == key.rawGXLen) <|
    match key.backendKey with
    | none => .fatal (-502720)
    | some dhm =>
      assertion (-502720) (buffLen == mpi_size dhm.GX && buffLen == dhm.len) <|
      .ret ((mpi_write_binary dhm.GX key.rawGXLen).getD [])

/-- `cryptDhmKeyCheck(key)`: `true` is `SUCCESS`. -/
def cryptDhmKeyCheck (h : CryptHdr) (key : CRYPTDHM_T) : Bool :=
  match key.backendKey with
  | none => false
  | some dhm =>
    let keyType := key.rawGXType
    if keyType = 0 then false else
    let keyLen := cryptDhmKeyLenByType h keyType
    if keyLen ≤ 0 then false else
    if dhm.len ≠ keyLen then false else
    if mpi_size dhm.P ≠ keyLen then false else
    if mpi_size dhm.X ≠ keyLen then false else
    if mpi_size dhm.GX ≠ keyLen then false else
    if mpi_size dhm.GY ≠ keyLen then false else
    if _cryptDhmCheckRange dhm.GX dhm.P ≠ true then false else
    if _cryptDhmCheckRange dhm.GY dhm.P ≠ true then false else
    true

/-- `dhm_calc_secret(ctx, output, &olen, ..)`: rejects a short output buffer
and an out-of-range peer value, then `K = GY ^ X mod P`, written big-endian in
`mpi_size(K)` bytes.  The blinding of the backend does not change `K`. -/
def dhm_calc_secret (ctx : dhm_context) (olen : Nat) : Option (dhm_context × List Nat × Nat) :=
  if olen < ctx.len then none
  else if _cryptDhmCheckRange ctx.GY ctx.P ≠ true then none
  else match mpi_exp_mod ctx.GY ctx.X ctx.P with
    | none => none
    | some K => some ({ ctx with K := K }, beBytes (mpi_size K) K, mpi_size K)

/-- The machine state when `cryptDhmSecretForNeigh` ends: the pair, the local
array `buff` and the digest state. -/
structure SecretState where
  myDhm : Option CRYPTDHM_T
  buff : List Nat
  sha : ShaState
  deriving DecidableEq, Repr

/-- The block after the label `finish` of `cryptDhmSecretForNeigh`: the log
line reads `myDhm->rawGXLen`, then `GY` and `K` are freed through `dhm`, the
buffer is zeroed and `secret` returned. -/
def secretFinish (h : CryptHdr) (secret : Option CRYPTSHA1_T) (myDhm : Option CRYPTDHM_T)
    (dhm : Option dhm_context) (buff : List Nat) (sha : ShaState) :
    Outcome (Option CRYPTSHA1_T) × SecretState :=
  match myDhm with
  | none => (.segv, { myDhm := myDhm, buff := buff, sha := sha })
  | some key =>
    match dhm with
    | none => (.segv, { myDhm := myDhm, buff := buff, sha := sha })
    | some d =>
      (.ret secret,
       { myDhm := some { key with backendKey := some { d with GY := 0, K := 0 } },
         buff := List.replicate h.CRYPT_DHM_MAX_LEN 0, sha := sha })

/-- `cryptDhmSecretForNeigh(myDhm, neighRawKey, neighRawKeyLen)`; `buff` is the
initial content of the local array of `CRYPT_DHM_MAX_LEN` bytes, `sha` the
digest state before the call. -/
def cryptDhmSecretForNeigh (h : CryptHdr) (b : Polarssl) (sha : ShaState)
    (myDhm : Option CRYPTDHM_T) (neighRawKey : List Nat) (neighRawKeyLen : Nat)
    (buff : List Nat) : Outcome (Option CRYPTSHA1_T) × SecretState :=
  match myDhm with
  | none => secretFinish h none myDhm none buff sha
  | some key =>
  match key.backendKey with
  | none => secretFinish h none myDhm none buff sha
  | some dhm =>
  if key.rawGXType = 0 then secretFinish h none myDhm (some dhm) buff sha else
  if cryptDhmKeyTypeByLen h neighRawKeyLen ≠ key.rawGXType ∨ dhm.len ≠ neighRawKeyLen ∨
      h.CRYPT_DHM_MAX_LEN < neighRawKeyLen then
    secretFinish h none myDhm (some dhm) buff sha else
  let dhm1 := { dhm with GY := mpi_read_binary (neighRawKey.take neighRawKeyLen) }
  let key1 := { key with backendKey := some dhm1 }
  if cryptDhmKeyCheck h key1 ≠ true then
    secretFinish h none (some key1) (some dhm1) buff sha else
  match dhm_calc_secret dhm1 dhm.len with
  | none => secretFinish h none (some key1) (some dhm1) buff sha
  | some (dhm2, raw, n) =>
    let key2 := { key with backendKey := some dhm2 }
    let buff2 := raw ++ buff.drop n
    if n > neighRawKeyLen ∨ n < (neighRawKeyLen / 4) * 3 then
      secretFinish h none (some key2) (some dhm2) buff2 sha else
    match cryptShaAtomic b sha (buff2.take n) with
    | (.ret secret, sha1) => secretFinish h (some secret) (some key2) (some dhm2) buff2 sha1
    | (.fatal code, sha1) => (.fatal code, { myDhm := some key2, buff := buff2, sha := sha1 })
    | (.segv, sha1) => (.segv, { myDhm := some key2, buff := buff2, sha := sha1 })

/-! ## Random bytes -/

/-- `entropy_func(&entropy_ctx, out, len)`: the answer of the entropy provider
to one request is an oracle, either a failure or a byte source of which the
first `len` bytes are delivered. -/
def entropy_func (entropy : Option (Nat → Nat)) (len : Nat) : Option (List Nat) :=
  entropy.map (fun e => (List.range len).map (fun i => e i % 256))

/-- `memcpy(&dst[off], src, n)` with `n` the length of `src`. -/
def memcpy (dst : List Nat) (off : Nat) (src : List Nat) : List Nat :=
  dst.take off ++ src ++ dst.drop (off + src.length)

/-- The loop `for (outPos = 0; outLen > outPos; outPos += sizeof(CRYPTSHA1_T))`
of `cryptRand`, entered with the current `outPos`; `outPos` is a `uint32_t`.
`seed0` is `seed[0]`, `seed1` is `seed[1]`.  `none`: the loop has not left
within `fuel` iterations. -/
def cryptRandLoop (b : Polarssl) (seed0 : List Nat) (outLen : Nat) :
    Nat → ShaState → CRYPTSHA1_T → List Nat → Nat → Option (Outcome (List Nat) × ShaState)
  | 0, _, _, _, _ => none
  | fuel + 1, sha, seed1, out, outPos =>
    if outLen > outPos then
      match cryptShaAtomic b sha (seed0 ++ seed1.bytes) with
      | (.ret next, sha1) =>
        cryptRandLoop b seed0 outLen fuel sha1 next
          (memcpy out outPos (next.bytes.take (min (outLen - outPos) 20)))
          ((outPos + 20) % 2 ^ 32)
      | (.fatal code, sha1) => some (.fatal code, sha1)
      | (.segv, sha1) => some (.segv, sha1)
    else some (.ret out, sha)

/-- `cryptRand(out, outLen)`: `out` is the content of the caller's buffer
before the call, the result its content after.  `none`: the loop has not left
within `fuel` iterations. -/
def cryptRand (b : Polarssl) (entropy : Option (Nat → Nat)) (fuel : Nat) (sha : ShaState)
    (out : List Nat) (outLen : Nat) : Option (Outcome (List Nat) × ShaState) :=
  if ¬ (b.ENTROPY_BLOCK_SIZE > 20) then some (.fatal (-502139), sha) else
  if outLen ≤ 20 then
    match entropy_func entropy outLen with
    | none => some (.fatal (-502148), sha)
    | some bytes => some (.ret (memcpy out 0 bytes), sha)
  else
    match entropy_func entropy 20 with
    | none => some (.fatal (-502140), sha)
    | some seed0 =>
      match cryptShaAtomic b sha seed0 with
      | (.ret seed1, sha1) => cryptRandLoop b seed0 outLen fuel sha1 seed1 out 0
      | (.fatal code, sha1) => some (.fatal code, sha1)
      | (.segv, sha1) => some (.segv, sha1)

/-! ## RSA identity -/

/-- The constants the RSA functions use beyond the registry: the public
exponent `CRYPT_KEY_E_VAL` and the buffer size `CRYPT_RSA_MAX_LEN` of the
absent `crypt.h`, and whether the build defines `EXTREME_PARANOIA`. -/
structure RsaHdr where
  CRYPT_KEY_E_VAL : Nat
  CRYPT_RSA_MAX_LEN : Nat
  EXTREME_PARANOIA : Bool

/-- The backend state of an RSA key (`rsa_context`): modulus length, modulus,
public exponent, and the private exponent and primes of a private key. -/
structure rsa_context where
  len : Nat
  N : Nat
  E : Nat
  D : Nat
  P : Nat
  Q : Nat
  deriving DecidableEq, Repr

/-- `CRYPTRSA_T`: an RSA key handle; `backendKey = none` is a null backend pointer. -/
structure CRYPTRSA_T where
  backendKey : Option rsa_context
  rawKeyType : Nat
  rawKeyLen : Nat
  deriving DecidableEq, Repr

/-- The collaborators of `cryptRsaKeyFromDer` outside this file: the key-file
decoder (`x509parse_keyfile`, or `pk_parse_keyfile` followed by `rsa_copy`),
`none` when it fails, and the backend check `rsa_check_privkey`, `true` when it
returns 0. -/
structure KeyDecoder where
  parse_keyfile : String → Option rsa_context
  rsa_check_privkey : rsa_context → Bool

/-- `cryptRsaPubKeyGetRaw(key, buff, buffLen)`: `none` is `FAILURE` (the buffer
is not written), `some bytes` is `SUCCESS` with the `buffLen` bytes written. -/
def cryptRsaPubKeyGetRaw (key : Option CRYPTRSA_T) (buffLen : Nat) : Option (List Nat) :=
  match key with
  | none => none
  | some key =>
    if buffLen = 0 ∨ key.rawKeyType = 0 ∨ buffLen ≠ key.rawKeyLen then none else
    match key.backendKey with
    | none => none
    | some rsa =>
      if buffLen ≠ mpi_size rsa.N ∨ buffLen ≠ rsa.len then none else
      mpi_write_binary rsa.N buffLen

/-- `cryptRsaPubKeyFromRaw(rawKey, rawKeyLen)`; `rawKey` is the memory at the
pointer, of which `rawKeyLen` bytes are read.  The exponent bytes are those of
`ntohl(CRYPT_KEY_E_VAL)` in memory, read big-endian: `CRYPT_KEY_E_VAL` as a
`uint32_t`. -/
def cryptRsaPubKeyFromRaw (h : CryptHdr) (c : RsaHdr) (rawKey : List Nat) (rawKeyLen : Nat) :
    Outcome (Option CRYPTRSA_T) :=
  assertion (-502024) (cryptRsaKeyTypeByLen h rawKeyLen != 0) <|
  let rsa : rsa_context :=
    { len := rawKeyLen, N := mpi_read_binary (rawKey.take rawKeyLen),
      E := mpi_read_binary (beBytes 4 (c.CRYPT_KEY_E_VAL % 2 ^ 32)), D := 0, P := 0, Q := 0 }
  let cryptKey : CRYPTRSA_T :=
    { backendKey := some rsa, rawKeyLen := rawKeyLen,
      rawKeyType := cryptRsaKeyTypeByLen h rawKeyLen }
  if c.EXTREME_PARANOIA then
    match cryptRsaPubKeyGetRaw (some cryptKey) rawKeyLen with
    | none => .fatal (-502721)
    | some buff => assertion (-502722) (rawKey.take rawKeyLen == buff) (.ret (some cryptKey))
  else .ret (some cryptKey)

/-- `cryptRsaKeyFromDer(keyPath)`; `my_PrivKey` is the global private key
before the call, the second component of the result the global after it.
`keyBuff` is the initial content of the local array of `CRYPT_RSA_MAX_LEN`
bytes; a raw export longer than the array writes past it. -/
def cryptRsaKeyFromDer (h : CryptHdr) (c : RsaHdr) (dec : KeyDecoder)
    (my_PrivKey : Option CRYPTRSA_T) (keyPath : String) (keyBuff : List Nat) :
    Outcome (Option CRYPTRSA_T) × Option CRYPTRSA_T :=
  assertionSt (-502029) my_PrivKey.isNone my_PrivKey <|
  match dec.parse_keyfile keyPath with
  | none => (.ret none, my_PrivKey)
  | some rsa =>
    if dec.rsa_check_privkey rsa ≠ true then (.ret none, my_PrivKey) else
    let keyLen := mpi_size rsa.N
    if keyLen ≤ 0 then (.ret none, my_PrivKey) else
    let keyType := cryptRsaKeyTypeByLen h keyLen
    if keyType = 0 then (.ret none, my_PrivKey) else
    if u8 keyType = 0 then (.ret none, my_PrivKey) else
    if u16 keyLen = 0 then (.ret none, my_PrivKey) else
    let privKey : CRYPTRSA_T :=
      { backendKey := some rsa, rawKeyType := u8 keyType, rawKeyLen := u16 keyLen }
    match cryptRsaPubKeyGetRaw (some privKey) (u16 keyLen) with
    | none => (.ret none, my_PrivKey)
    | some bytes =>
      if c.CRYPT_RSA_MAX_LEN < bytes.length then (.segv, my_PrivKey) else
      match cryptRsaPubKeyFromRaw h c (bytes ++ keyBuff.drop bytes.length) (u16 keyLen) with
      | .ret (some pubKey) => (.ret (some pubKey), some privKey)
      | .ret none => (.ret none, my_PrivKey)
      | .fatal code => (.fatal code, my_PrivKey)
      | .segv => (.segv, my_PrivKey)

/-! ## Reference definitions, following the specification -/

/-- The generation of the specification: a loop bounded at `budget` attempts,
each a whole generation from scratch; the first attempt that passes every check
yields the key, and an exhausted budget is fatal. -/
def generateBounded (h : CryptHdr) (b : Polarssl) (rng : Nat → Option Nat) (keyType : Nat) :
    Nat → Nat → Outcome (Option CRYPTDHM_T) × Nat
  | 0, pos => (.fatal (-502718), pos)
  | budget + 1, pos =>
    match cryptDhmKeyMakeTry h b rng keyType pos with
    | (.ok key, pos1) => (.ret (some key), pos1)
    | (.error _, pos1) => generateBounded h b rng keyType budget pos1

/-- The secret of the specification for a pair of registered length `len`
whose raw shared value is `K`: none when the byte length of `K` falls outside
`[(len / 4) * 3, len]` (or `len` exceeds the local buffer), otherwise the
digest of the big-endian bytes of `K`. -/
def sharedSecretOf (h : CryptHdr) (b : Polarssl) (sha : ShaState) (len K : Nat) :
    Outcome (Option CRYPTSHA1_T) :=
  if h.CRYPT_DHM_MAX_LEN < len then .ret none
  else if mpi_size K > len ∨ mpi_size K < (len / 4) * 3 then .ret none
  else
    match cryptShaAtomic b sha (beBytes (mpi_size K) K) with
    | (.ret secret, _) => .ret (some secret)
    | (.fatal code, _) => .fatal code
    | (.segv, _) => .segv

/-- The blocks of the random expansion: `b0 = SHA1(s)`, `b(k+1) = SHA1(s || b(k))`. -/
def randBlock (b : Polarssl) (s : List Nat) : Nat → CRYPTSHA1_T
  | 0 => b.sha1 s
  | k + 1 => b.sha1 (s ++ (randBlock b s k).bytes)

/-- The stream `b1 || b2 || .. || bk` of the random expansion. -/
def randStream (b : Polarssl) (s : List Nat) : Nat → List Nat
  | 0 => []
  | k + 1 => randStream b s k ++ (randBlock b s (k + 1)).bytes

/-! ## Sample backend and inputs, used to evaluate the embedding -/

/-- A stand-in digest: twenty bytes derived from a checksum of the stream. -/
def sampleSha (l : List Nat) : CRYPTSHA1_T :=
  ⟨(List.range 20).map (fun i => (l.foldl (fun a x => (a * 31 + x) % 251) 7 + 13 * i) % 256),
    by rw [List.length_map, List.length_range]⟩

/-- A backend instance with odd moduli of 128, 256 and 384 bytes. -/
def samplePolarssl : Polarssl where
  sha1 := sampleSha
  POLARSSL_DHM_RFC5114_MODP_1024_P := 2 ^ 1024 - 3
  POLARSSL_DHM_RFC5114_MODP_1024_G := 2
  POLARSSL_DHM_RFC3526_MODP_2048_P := 2 ^ 2048 - 1
  POLARSSL_DHM_RFC3526_MODP_2048_G := 2
  POLARSSL_DHM_RFC3526_MODP_3072_P := 2 ^ 3072 - 1
  POLARSSL_DHM_RFC3526_MODP_3072_G := 2
  ENTROPY_BLOCK_SIZE := 64

/-- A random oracle that always delivers the same 1024-bit number. -/
def rngA : Nat → Option Nat := fun _ => some (2 ^ 1023 + 12345)

/-- A random oracle whose first request fails. -/
def rngB : Nat → Option Nat := fun i => if i = 0 then none else some (2 ^ 1024 - 7 + i)

/-- The pair generated from `rngA` (the empty handle if generation failed). -/
def keyA : CRYPTDHM_T :=
  ((cryptDhmKeyMake sampleHdr samplePolarssl rngA 16 0 0).1.value.getD none).getD ⟨none, 0, 0⟩

/-- The pair generated from `rngB` (the empty handle if generation failed). -/
def keyB : CRYPTDHM_T :=
  ((cryptDhmKeyMake sampleHdr samplePolarssl rngB 16 0 0).1.value.getD none).getD ⟨none, 0, 0⟩

/-- The raw public value of `keyA`, as `cryptDhmPubKeyGetRaw` writes it. -/
def rawA : List Nat := (cryptDhmPubKeyGetRaw (some keyA) 128).value.getD []

/-- The raw public value of `keyB`, as `cryptDhmPubKeyGetRaw` writes it. -/
def rawB : List Nat := (cryptDhmPubKeyGetRaw (some keyB) 128).value.getD []

/-- The secret `keyA` computes from the raw public value of `keyB`. -/
def sampleSecret : CRYPTSHA1_T :=
  ((cryptDhmSecretForNeigh sampleHdr samplePolarssl { shaClean := true, sha_ctx := [] }
    (some keyA) rawB 128 []).1.value.getD none).getD (sampleSha [])

/-- A clean digest state. -/
def cleanSha : ShaState := { shaClean := true, sha_ctx := [] }

/-- A dirty digest state: an incremental digest is open. -/
def dirtySha : ShaState := { shaClean := false, sha_ctx := [1, 2, 3] }

/-- An RSA header instance: exponent 65537, a 512-byte buffer, paranoia on. -/
def sampleRsaHdr : RsaHdr where
  CRYPT_KEY_E_VAL := 65537
  CRYPT_RSA_MAX_LEN := 512
  EXTREME_PARANOIA := true

/-- The same header with `EXTREME_PARANOIA` not defined. -/
def plainRsaHdr : RsaHdr where
  CRYPT_KEY_E_VAL := 65537
  CRYPT_RSA_MAX_LEN := 512
  EXTREME_PARANOIA := false

/-- A raw RSA-512 key of 64 bytes with a non-zero first byte. -/
def sampleRawKey : List Nat := (List.range 64).map (fun i => 200 - 3 * i)

/-- A raw byte string of 64 bytes whose first byte is zero. -/
def zeroLedRawKey : List Nat := 0 :: List.replicate 63 1

/-- A decoder that yields a private key with a 64-byte modulus for the path
`rsa.der` and fails for every other path; the backend check accepts it. -/
def sampleDecoder : KeyDecoder where
  parse_keyfile := fun path =>
    if path = "rsa.der" then
      some { len := 64, N := mpi_read_binary ((List.range 64).map (fun i => 200 - 3 * i)),
             E := 65537, D := 5, P := 3, Q := 7 }
    else none
  rsa_check_privkey := fun _ => true

/-- The backend state of `keyA`. -/
def dhmA : dhm_context := keyA.backendKey.getD ⟨0, 0, 0, 0, 0, 0, 0⟩

/-- The state in which `cryptDhmSecretForNeigh` leaves `keyA`, the local buffer
and the digest context after computing the secret with `keyB`. -/
def sampleExit : SecretState :=
  { myDhm := some { backendKey := some { dhmA with GY := 0, K := 0 },
                    rawGXType := 16, rawGXLen := 128 },
    buff := List.replicate 384 0, sha := cleanSha }

/-- The backend with the 2048-bit MODP group of RFC 3526, the value of
`POLARSSL_DHM_RFC3526_MODP_2048_P` (a safe prime) and its generator 2. -/
def rfc3526Polarssl : Polarssl :=
  { samplePolarssl with
    POLARSSL_DHM_RFC3526_MODP_2048_P := 0xFFFFFFFFFFFFFFFFC90FDAA22168C234C4C6628B80DC1CD129024E088A67CC74020BBEA63B139B22514A08798E3404DDEF9519B3CD3A431B302B0A6DF25F14374FE1356D6D51C245E485B576625E7EC6F44C42E9A637ED6B0BFF5CB6F406B7EDEE386BFB5A899FA5AE9F24117C4B1FE649286651ECE45B3DC2007CB8A163BF0598DA48361C55D39A69163FA8FD24CF5F83655D23DCA3AD961C62F356208552BB9ED529077096966D670C354E4ABC9804F1746C08CA18217C32905E462E36CE3BE39E772C180E86039B2783A2EC07A28FB5C55DF06F4C52C9DE2BCBF6955817183995497CEA956AE515D2261898FA051015728E5A8AACAA68FFFFFFFFFFFFFFFF
    POLARSSL_DHM_RFC3526_MODP_2048_G := 2 }

/-- A random oracle that always delivers one fixed 2048-bit number. -/
def rngC : Nat → Option Nat := fun _ => some 0xCA410503C555663F29EF41D0DEEA959EA9F559FCF0B3786801B5577D00E266D06A5CCC2CBE99854AB0D26EE6FA92890682BDE024F7ACEE2206E0F45856EAA3017576714A06057C82527122DC57708107D64A3CE030A1F6D513ED748BB80E3B0D34A9AF4125ECE8452AA4857E8101E89A95C5FB986980A81FBC428D42FA88269287F26AEE175F0CD2BB9D58E4F543BBCFBCF74D7A5ADAD1212FD2B7A48D9FE5B99C9CEA0C2CA1C789A091250E8FE4602442D6CB5C6ED4E94BDFC9E3B11FCFF4545F811CB929645F8B6FACAA5090E5E945452EC40A3193CA54EE8971105E503A67DAEA58BA4C73A942CD8778E7D340BBCDD1F6F86C029A7245BB91433A6AA79987

/-- A random oracle that always delivers the inverse of the number of `rngC`
modulo the order `(P - 1) / 2` of the generator in the RFC 3526 group. -/
def rngD : Nat → Option Nat := fun _ => some 0x717EAFCEAC1B612B20F7FF3E17E2FA73B69F72E75B53469E492F1CC9E056633123D851A961F72B89242E5FA5907DC7A2221ABA451F3DE0E64133BFC164F0DF38AF0AC0FFCBA5B2C221C1A0359B9968C9EFE06245DEDCD94F5118D6A7DFCC5E524E3470BC54A70802DF0F7CA1E0FF47E972554E1F49C6BECA4E995075A0DB7DE00153EE2EA6526889B3460B038C51254DDE0AB1B00D44EAB97E39F77B0DC2A749483F16CCED3463A1E68EB0F9E54FFA913A8F4CE9D9D650B55DF826CCD98881077C361D1984EEF1F86BA72FC4182987E70D915F552033B695689DDF2A778527EFDD06CD2133C5559EBE0E0D044E8DD46AD102AE91BFB528F6FD8357540C18C69C

/-- The pair generated in the RFC 3526 group from `rngC`. -/
def keyC : CRYPTDHM_T :=
  ((cryptDhmKeyMake sampleHdr rfc3526Polarssl rngC 17 0 0).1.value.getD none).getD ⟨none, 0, 0⟩

/-- The pair generated in the RFC 3526 group from `rngD`. -/
def keyD : CRYPTDHM_T :=
  ((cryptDhmKeyMake sampleHdr rfc3526Polarssl rngD 17 0 0).1.value.getD none).getD ⟨none, 0, 0⟩

/-- The raw public value of `keyC`, as `cryptDhmPubKeyGetRaw` writes it. -/
def rawC : List Nat := (cryptDhmPubKeyGetRaw (some keyC) 256).value.getD []

/-- The raw public value of `keyD`, as `cryptDhmPubKeyGetRaw` writes it. -/
def rawD : List Nat := (cryptDhmPubKeyGetRaw (some keyD) 256).value.getD []

/-! ## Key-type registry: round trip and sentinel -/

theorem u8_of_range {t : Int} (h0 : 0 ≤ t) (h1 : t < 256) : (u8 t : Int) = t := by
  unfold u8
  rw [Int.emod_eq_of_lt h0 h1]
  exact Int.toNat_of_nonneg h0

theorem dhmLen_cases (h : CryptHdr) (t : Int) :
    (t = h.CRYPT_DHM1024_TYPE ∧ cryptDhmKeyLenByType h t = 128) ∨
    (t = h.CRYPT_DHM2048_TYPE ∧ t ≠ h.CRYPT_DHM1024_TYPE ∧ cryptDhmKeyLenByType h t = 256) ∨
    (t = h.CRYPT_DHM3072_TYPE ∧ t ≠ h.CRYPT_DHM1024_TYPE ∧ t ≠ h.CRYPT_DHM2048_TYPE ∧
      cryptDhmKeyLenByType h t = 384) ∨
    (t ∉ dhmTypes h ∧ cryptDhmKeyLenByType h t = 0) := by
  unfold cryptDhmKeyLenByType dhmTypes
  simp only [CRYPT_DHM1024_LEN, CRYPT_DHM2048_LEN, CRYPT_DHM3072_LEN]
  split_ifs with h1 h2 h3
  · left; exact ⟨h1, by decide⟩
  · right; left; exact ⟨h2, h1, by decide⟩
  · right; right; left; exact ⟨h3, h1, h2, by decide⟩
  · right; right; right; exact ⟨by simp [h1, h2, h3], by decide⟩

theorem dhm_round_trip (h : CryptHdr) (t : Int) (ht : t ∈ dhmTypes h) (h0 : 0 ≤ t)
    (h1 : t < 256) : (cryptDhmKeyTypeByLen h (cryptDhmKeyLenByType h t) : Int) = t := by
  rcases dhmLen_cases h t with ⟨e, hl⟩ | ⟨e, _, hl⟩ | ⟨e, _, _, hl⟩ | ⟨e, _⟩
  · rw [hl]; subst e; simp [cryptDhmKeyTypeByLen, CRYPT_DHM1024_LEN, u8_of_range h0 h1]
  · rw [hl]; subst e
    simp [cryptDhmKeyTypeByLen, CRYPT_DHM1024_LEN, CRYPT_DHM2048_LEN, u8_of_range h0 h1]
  · rw [hl]; subst e
    simp [cryptDhmKeyTypeByLen, CRYPT_DHM1024_LEN, CRYPT_DHM2048_LEN, CRYPT_DHM3072_LEN,
      u8_of_range h0 h1]
  · exact absurd ht e

theorem rsa_round_trip (h : CryptHdr) (t : Int) (ht : t ∈ rsaTypes h) (h0 : 0 ≤ t)
    (h1 : t < 256) : (cryptRsaKeyTypeByLen h (cryptRsaKeyLenByType h t) : Int) = t := by
  have hu := u8_of_range h0 h1
  simp only [rsaTypes, List.mem_cons, List.mem_singleton, List.not_mem_nil, or_false] at ht
  unfold cryptRsaKeyLenByType
  simp only [CRYPT_RSA512_LEN, CRYPT_RSA768_LEN, CRYPT_RSA896_LEN, CRYPT_RSA1024_LEN,
    CRYPT_RSA1536_LEN, CRYPT_RSA2048_LEN, CRYPT_RSA3072_LEN, CRYPT_RSA4096_LEN]
  split_ifs with e1 e2 e3 e4 e5 e6 e7 e8
  all_goals first
    | (exfalso; tauto)
    | (subst_vars
       simp [cryptRsaKeyTypeByLen, u16, CRYPT_RSA512_LEN, CRYPT_RSA768_LEN, CRYPT_RSA896_LEN,
         CRYPT_RSA1024_LEN, CRYPT_RSA1536_LEN, CRYPT_RSA2048_LEN, CRYPT_RSA3072_LEN,
         CRYPT_RSA4096_LEN, hu])

/-- C5: registry round trip.  For every registered DH type tag `t`,
`cryptDhmKeyTypeByLen(cryptDhmKeyLenByType(t)) = t`, and for every registered
RSA type tag `t`, `cryptRsaKeyTypeByLen(cryptRsaKeyLenByType(t)) = t`; the tags
are the macros of the absent header, values of the `uint8_t` the lookups return. -/
theorem registry_round_trip (h : CryptHdr) (t : Int) (h0 : 0 ≤ t) (h1 : t < 256) :
    (t ∈ dhmTypes h → (cryptDhmKeyTypeByLen h (cryptDhmKeyLenByType h t) : Int) = t) ∧
    (t ∈ rsaTypes h → (cryptRsaKeyTypeByLen h (cryptRsaKeyLenByType h t) : Int) = t) :=
  ⟨fun ht => dhm_round_trip h t ht h0 h1, fun ht => rsa_round_trip h t ht h0 h1⟩

theorem registry_round_trip_witness :
    ((0 : Int) ≤ 17 ∧ (17 : Int) < 256) ∧ ((0 : Int) ≤ 6 ∧ (6 : Int) < 256) ∧
    ((17 : Int) ∈ dhmTypes sampleHdr ∧
      (cryptDhmKeyTypeByLen sampleHdr (cryptDhmKeyLenByType sampleHdr 17) : Int) = 17) ∧
    ((6 : Int) ∈ rsaTypes sampleHdr ∧
      (cryptRsaKeyTypeByLen sampleHdr (cryptRsaKeyLenByType sampleHdr 6) : Int) = 6) :=
  ⟨by decide, by decide,
   ⟨by decide, (registry_round_trip sampleHdr 17 (by decide) (by decide)).1 (by decide)⟩,
   ⟨by decide, (registry_round_trip sampleHdr 6 (by decide) (by decide)).2 (by decide)⟩⟩

/-- C6: the registry lookups are total functions and return the sentinel on
every unregistered input: length to type gives 0 off the registered lengths,
type to length gives 0 and type to name gives `NULL` off the registered tags,
for the DH and for the RSA family. -/
theorem registry_sentinel (h : CryptHdr) :
    (∀ len : Int, len ∉ dhmLens → cryptDhmKeyTypeByLen h len = 0) ∧
    (∀ len : Int, len ∉ rsaLens → cryptRsaKeyTypeByLen h len = 0) ∧
    (∀ type : Int, type ∉ dhmTypes h →
      cryptDhmKeyLenByType h type = 0 ∧ cryptDhmKeyTypeAsString h type = none) ∧
    (∀ type : Int, type ∉ rsaTypes h →
      cryptRsaKeyLenByType h type = 0 ∧ cryptRsaKeyTypeAsString h type = none) := by
  refine ⟨?_, ?_, ?_, ?_⟩
  · intro len hl
    simp only [dhmLens, List.mem_cons, List.mem_singleton, List.not_mem_nil, or_false,
      not_or] at hl
    simp [cryptDhmKeyTypeByLen, hl, u8]
  · intro len hl
    simp only [rsaLens, List.mem_cons, List.mem_singleton, List.not_mem_nil, or_false,
      not_or] at hl
    simp [cryptRsaKeyTypeByLen, hl, u8]
  · intro type ht
    simp only [dhmTypes, List.mem_cons, List.mem_singleton, List.not_mem_nil, or_false,
      not_or] at ht
    simp [cryptDhmKeyLenByType, cryptDhmKeyTypeAsString, ht, u16]
  · intro type ht
    simp only [rsaTypes, List.mem_cons, List.mem_singleton, List.not_mem_nil, or_false,
      not_or] at ht
    simp [cryptRsaKeyLenByType, cryptRsaKeyTypeAsString, ht, u16]

theorem registry_sentinel_witness :
    ((129 : Int) ∉ dhmLens ∧ cryptDhmKeyTypeByLen sampleHdr 129 = 0) ∧
    ((100 : Int) ∉ rsaLens ∧ cryptRsaKeyTypeByLen sampleHdr 100 = 0) ∧
    ((4 : Int) ∉ dhmTypes sampleHdr ∧
      cryptDhmKeyLenByType sampleHdr 4 = 0 ∧ cryptDhmKeyTypeAsString sampleHdr 4 = none) ∧
    ((-1 : Int) ∉ rsaTypes sampleHdr ∧
      cryptRsaKeyLenByType sampleHdr (-1) = 0 ∧ cryptRsaKeyTypeAsString sampleHdr (-1) = none) :=
  ⟨⟨by decide, (registry_sentinel sampleHdr).1 129 (by decide)⟩,
   ⟨by decide, (registry_sentinel sampleHdr).2.1 100 (by decide)⟩,
   ⟨by decide, (registry_sentinel sampleHdr).2.2.1 4 (by decide)⟩,
   ⟨by decide, (registry_sentinel sampleHdr).2.2.2 (-1) (by decide)⟩⟩

/-! ## SHA-1 context: sequencing and split digests -/

theorem cryptShaAtomic_clean (b : Polarssl) (st : ShaState) (input : List Nat)
    (hc : st.shaClean = true) (hl : 0 < input.length) :
    cryptShaAtomic b st input = (.ret (b.sha1 input), { st with sha_ctx := [] }) := by
  simp [cryptShaAtomic, assertionSt, hc, hl, sha1_finish, sha1_update, sha1_starts]

theorem cryptShaAtomic_dirty (b : Polarssl) (st : ShaState) (input : List Nat)
    (hc : st.shaClean = false) : cryptShaAtomic b st input = (.fatal (-502030), st) := by
  simp [cryptShaAtomic, assertionSt, hc]

/-- C8: the digest context is a two-state machine on `shaClean`.  Each of
`cryptShaNew`, `cryptShaUpdate`, `cryptShaFinal`, `cryptShaAtomic` returns only
from the flag value it requires (clean, dirty, dirty, clean) and leaves the flag
dirty, dirty, clean, clean; called with the other flag value it aborts on its
first assertion with the digest state untouched. -/
theorem sha_state_machine (b : Polarssl) (st : ShaState) (input : List Nat) :
    ((∀ st1, cryptShaNew st input = (.ret (), st1) →
        st.shaClean = true ∧ st1.shaClean = false) ∧
      (st.shaClean = true → 0 < input.length → (cryptShaNew st input).1 = .ret ()) ∧
      (st.shaClean = false → cryptShaNew st input = (.fatal (-502033), st))) ∧
    ((∀ st1, cryptShaUpdate st input = (.ret (), st1) →
        st.shaClean = false ∧ st1.shaClean = false) ∧
      (st.shaClean = false → 0 < input.length → (cryptShaUpdate st input).1 = .ret ()) ∧
      (st.shaClean = true → cryptShaUpdate st input = (.fatal (-502035), st))) ∧
    ((∀ d st1, cryptShaFinal b st = (.ret d, st1) →
        st.shaClean = false ∧ st1.shaClean = true) ∧
      (st.shaClean = false → (cryptShaFinal b st).1 = .ret (b.sha1 st.sha_ctx)) ∧
      (st.shaClean = true → cryptShaFinal b st = (.fatal (-502037), st))) ∧
    ((∀ d st1, cryptShaAtomic b st input = (.ret d, st1) →
        st.shaClean = true ∧ st1.shaClean = true) ∧
      (st.shaClean = true → 0 < input.length →
        (cryptShaAtomic b st input).1 = .ret (b.sha1 input)) ∧
      (st.shaClean = false → cryptShaAtomic b st input = (.fatal (-502030), st))) := by
  obtain ⟨clean, ctx⟩ := st
  cases clean <;> by_cases hl : 0 < input.length <;>
    simp [cryptShaNew, cryptShaUpdate, cryptShaFinal, cryptShaAtomic, assertionSt, hl,
      sha1_finish, sha1_update, sha1_starts]

theorem sha_state_machine_witness :
    (cryptShaNew cleanSha [7]).1 = .ret () ∧
    cryptShaNew dirtySha [7] = (.fatal (-502033), dirtySha) ∧
    (cryptShaUpdate dirtySha [7]).1 = .ret () ∧
    cryptShaUpdate cleanSha [7] = (.fatal (-502035), cleanSha) ∧
    (cryptShaFinal samplePolarssl dirtySha).1 = .ret (sampleSha [1, 2, 3]) ∧
    cryptShaFinal samplePolarssl cleanSha = (.fatal (-502037), cleanSha) ∧
    (cryptShaAtomic samplePolarssl cleanSha [7]).1 = .ret (sampleSha [7]) ∧
    cryptShaAtomic samplePolarssl dirtySha [7] = (.fatal (-502030), dirtySha) :=
  ⟨(sha_state_machine samplePolarssl cleanSha [7]).1.2.1 rfl (by decide),
   (sha_state_machine samplePolarssl dirtySha [7]).1.2.2 rfl,
   (sha_state_machine samplePolarssl dirtySha [7]).2.1.2.1 rfl (by decide),
   (sha_state_machine samplePolarssl cleanSha [7]).2.1.2.2 rfl,
   (sha_state_machine samplePolarssl dirtySha [7]).2.2.1.2.1 rfl,
   (sha_state_machine samplePolarssl cleanSha [7]).2.2.1.2.2 rfl,
   (sha_state_machine samplePolarssl cleanSha [7]).2.2.2.2.1 rfl (by decide),
   (sha_state_machine samplePolarssl dirtySha [7]).2.2.2.2.2 rfl⟩

/-- C7, as stated, fails at the split points 0 and `length data`: with
`data = [1]` the call `cryptShaNew(data[0:0])` has length 0 and aborts on
assertion -502034, and for `n = 1` the call `cryptShaUpdate(data[1:])` has
length 0 and aborts on assertion -502036, while `cryptShaAtomic(data)` returns
the digest. -/
theorem sha_split_counterexample :
    ([1] : List Nat) ≠ [] ∧ 0 ≤ ([1] : List Nat).length ∧
    shaSplit samplePolarssl cleanSha [1] 0 = (.fatal (-502034), cleanSha) ∧
    shaSplit samplePolarssl cleanSha [1] 1 =
      (.fatal (-502036), { shaClean := false, sha_ctx := [1] }) ∧
    (cryptShaAtomic samplePolarssl cleanSha [1]).1 = .ret (sampleSha [1]) ∧
    (shaSplit samplePolarssl cleanSha [1] 0).1 ≠ (cryptShaAtomic samplePolarssl cleanSha [1]).1 := by
  refine ⟨by decide, by decide, by decide, by decide, by decide, by decide⟩

/-- C7, amended: starting from a clean digest context, for every byte string
`data` and every split point `n` with `0 < n < length data`, the calls
`cryptShaNew(data[0:n]); cryptShaUpdate(data[n:]); cryptShaFinal()` return the
digest that `cryptShaAtomic(data)` returns, the SHA-1 of `data`, and both leave
the context clean and zeroed. -/
theorem sha_split_eq_atomic (b : Polarssl) (st : ShaState) (data : List Nat) (n : Nat)
    (hc : st.shaClean = true) (h0 : 0 < n) (hn : n < data.length) :
    shaSplit b st data n = cryptShaAtomic b st data ∧
    (cryptShaAtomic b st data).1 = .ret (b.sha1 data) := by
  obtain ⟨clean, ctx⟩ := st
  simp only at hc
  subst hc
  have h1 : 0 < (data.take n).length := by rw [List.length_take]; omega
  have h2 : 0 < (data.drop n).length := by rw [List.length_drop]; omega
  have h3 : 0 < data.length := by omega
  have h1' : 0 < min n data.length := by simpa using h1
  have h2' : 0 < data.length - n := by simpa using h2
  simp [shaSplit, cryptShaNew, cryptShaUpdate, cryptShaFinal, cryptShaAtomic, assertionSt,
    sha1_finish, sha1_update, sha1_starts, h1', h2', h3, h0]

theorem sha_split_eq_atomic_witness :
    cleanSha.shaClean = true ∧ 0 < 2 ∧ 2 < ([10, 20, 30, 40, 50] : List Nat).length ∧
    shaSplit samplePolarssl cleanSha [10, 20, 30, 40, 50] 2 =
      cryptShaAtomic samplePolarssl cleanSha [10, 20, 30, 40, 50] ∧
    (cryptShaAtomic samplePolarssl cleanSha [10, 20, 30, 40, 50]).1 =
      .ret (samplePolarssl.sha1 [10, 20, 30, 40, 50]) :=
  ⟨rfl, by decide, by decide,
   sha_split_eq_atomic samplePolarssl cleanSha [10, 20, 30, 40, 50] 2 rfl (by decide) (by decide)⟩

/-! ## Big integers: size, big-endian bytes, modular exponentiation -/

theorem mpiSizeAux_bound : ∀ (fuel n : Nat), n ≤ fuel → n < 256 ^ mpiSizeAux fuel n := by
  intro fuel
  induction fuel with
  | zero => intro n hn; simp [mpiSizeAux]; omega
  | succ f ih =>
    intro n hn
    unfold mpiSizeAux
    split_ifs with h0
    · subst h0; simp
    · have hd : n / 256 ≤ f := by omega
      have := ih (n / 256) hd
      rw [pow_add, pow_one]
      omega

theorem mpi_size_bound (n : Nat) : n < 256 ^ mpi_size n := mpiSizeAux_bound n n (Nat.le_refl n)

theorem beBytes_length : ∀ (len x : Nat), (beBytes len x).length = len := by
  intro len
  induction len with
  | zero => intro x; rfl
  | succ l ih => intro x; simp [beBytes, ih]

theorem mpi_read_beBytes : ∀ (len x : Nat), mpi_read_binary (beBytes len x) = x % 256 ^ len := by
  intro len
  induction len with
  | zero => intro x; simp [beBytes, mpi_read_binary, Nat.mod_one]
  | succ l ih =>
    intro x
    have := ih (x / 256)
    unfold mpi_read_binary at this ⊢
    simp only [beBytes, List.foldl_append, List.foldl_cons, List.foldl_nil, this]
    rw [pow_succ, Nat.mul_comm (256 ^ l) 256, Nat.mod_mul, Nat.mod_mod]
    omega

theorem powModAux_eq : ∀ (fuel b e m acc : Nat), e < fuel → acc % m = acc →
    powModAux fuel b e m acc = acc * b ^ e % m := by
  intro fuel
  induction fuel with
  | zero => intro b e m acc h; omega
  | succ f ih =>
    intro b e m acc he hacc
    unfold powModAux
    split_ifs with h0 h1
    · subst h0; simp [hacc]
    · rw [ih _ _ _ _ (by omega) (Nat.mod_mod _ _)]
      have hsplit : b ^ e = (b * b) ^ (e / 2) * b := by
        conv_lhs => rw [← Nat.div_add_mod e 2, h1]
        rw [pow_succ, pow_mul]; ring_nf
      rw [hsplit]
      have : (acc * b % m) * (b * b % m) ^ (e / 2) % m = acc * ((b * b) ^ (e / 2) * b) % m := by
        rw [Nat.mul_mod, Nat.mod_mod, Nat.pow_mod, Nat.mod_mod, ← Nat.pow_mod, ← Nat.mul_mod]
        ring_nf
      exact this
    · rw [ih _ _ _ _ (by omega) hacc]
      have h1' : e % 2 = 0 := by omega
      have hsplit : b ^ e = (b * b) ^ (e / 2) := by
        conv_lhs => rw [← Nat.div_add_mod e 2, h1']
        rw [Nat.add_zero, pow_mul]; ring_nf
      rw [hsplit, Nat.mul_mod, Nat.pow_mod, Nat.mod_mod, ← Nat.pow_mod, ← Nat.mul_mod]

theorem mpi_exp_mod_eq {A E N K : Nat} (h : mpi_exp_mod A E N = some K) :
    K = A ^ E % N ∧ N % 2 = 1 := by
  unfold mpi_exp_mod at h
  split_ifs at h with hN
  have hK := Option.some.inj h
  rw [powModAux_eq _ _ _ _ _ (Nat.lt_succ_self E) (Nat.mod_mod _ _)] at hK
  refine ⟨?_, by omega⟩
  rw [← hK, Nat.mul_mod, Nat.mod_mod, Nat.pow_mod, Nat.mod_mod, ← Nat.pow_mod, ← Nat.mul_mod, Nat.one_mul]

theorem mpi_exp_mod_odd {A E N : Nat} (hN : N % 2 = 1) :
    mpi_exp_mod A E N = some (A ^ E % N) := by
  cases hm : mpi_exp_mod A E N with
  | none => unfold mpi_exp_mod at hm; split_ifs at hm; omega
  | some K => rw [(mpi_exp_mod_eq hm).1]

theorem pow_mod_comm (G XA XB P : Nat) : (G ^ XB % P) ^ XA % P = (G ^ XA % P) ^ XB % P := by
  rw [← Nat.pow_mod, ← Nat.pow_mod, ← pow_mul, ← pow_mul, Nat.mul_comm]


/-! ## Key generation: range of the public value, bounded retry -/

theorem cryptDhmKeyMakeTry_ok {h : CryptHdr} {b : Polarssl} {rng : Nat → Option Nat}
    {keyType pos pos1 : Nat} {key : CRYPTDHM_T}
    (hk : cryptDhmKeyMakeTry h b rng keyType pos = (.ok key, pos1)) :
    ∃ P G X, dhmGroup h b keyType = some (P, G) ∧ keyType ≠ 0 ∧
      cryptDhmKeyLenByType h keyType ≠ 0 ∧
      mpi_size P = cryptDhmKeyLenByType h keyType ∧
      mpi_size X = cryptDhmKeyLenByType h keyType ∧
      mpi_size (G ^ X % P) = cryptDhmKeyLenByType h keyType ∧
      P % 2 = 1 ∧ _cryptDhmCheckRange (G ^ X % P) P = true ∧
      key = { backendKey := some { len := cryptDhmKeyLenByType h keyType, P := P, G := G, X := X,
                                   GX := G ^ X % P, GY := 0, K := 0 },
              rawGXType := keyType, rawGXLen := cryptDhmKeyLenByType h keyType } := by
  unfold cryptDhmKeyMakeTry at hk
  simp only at hk
  split at hk
  · simp at hk
  split at hk
  · simp at hk
  rename_i h1 h2
  split at hk
  · simp at hk
  rename_i P G hg
  split at hk
  · simp at hk
  split at hk
  · simp at hk
  rename_i h3 h4
  split at hk
  · simp at hk
  rename_i X pos2 hs
  split at hk
  · simp at hk
  rename_i GX hx
  split at hk
  · simp at hk
  split at hk
  · simp at hk
  split at hk
  · simp at hk
  rename_i h6 h7 h8
  obtain ⟨hGX, hodd⟩ := mpi_exp_mod_eq hx
  subst hGX
  simp only [Prod.mk.injEq, Except.ok.injEq] at hk
  simp only [not_not] at h4 h6 h7 h8
  refine ⟨P, G, X, hg, h1, by omega, h4, h6, h7, hodd, h8, ?_⟩
  rw [← hk.1, h4]

theorem cryptDhmKeyMakeRec_ret (h : CryptHdr) (b : Polarssl) (rng : Nat → Option Nat)
    (keyType : Nat) : ∀ (fuel attempt pos : Nat) (hf : attemptsLeft attempt ≤ fuel)
      (r : Option CRYPTDHM_T) (p : Nat),
      cryptDhmKeyMakeRec h b rng keyType fuel attempt pos hf = (.ret r, p) →
      ∃ key pos0, r = some key ∧ cryptDhmKeyMakeTry h b rng keyType pos0 = (.ok key, p) := by
  intro fuel
  induction fuel with
  | zero =>
    intro attempt pos hf r p hr
    unfold cryptDhmKeyMakeRec at hr
    split at hr
    · rename_i key pos1 ht
      simp only [Prod.mk.injEq, Outcome.ret.injEq] at hr
      exact ⟨key, pos, hr.1.symm, by rw [ht, hr.2]⟩
    · split_ifs at hr with hlt
      · exact absurd hlt (by unfold attemptsLeft at hf; split_ifs at hf <;> omega)
      · simp [assertionSt] at hr
  | succ f ih =>
    intro attempt pos hf r p hr
    unfold cryptDhmKeyMakeRec at hr
    split at hr
    · rename_i key pos1 ht
      simp only [Prod.mk.injEq, Outcome.ret.injEq] at hr
      exact ⟨key, pos, hr.1.symm, by rw [ht, hr.2]⟩
    · split_ifs at hr with hlt
      · exact ih _ _ _ _ _ hr
      · simp [assertionSt] at hr

theorem cryptDhmKeyMakeRec_eq_bounded (h : CryptHdr) (b : Polarssl) (rng : Nat → Option Nat)
    (keyType : Nat) : ∀ (fuel attempt pos : Nat) (hf : attemptsLeft attempt ≤ fuel),
      attempt < 10 →
      cryptDhmKeyMakeRec h b rng keyType fuel attempt pos hf =
        generateBounded h b rng keyType (10 - attempt) pos := by
  intro fuel
  induction fuel with
  | zero =>
    intro attempt pos hf ha
    exact absurd hf (by unfold attemptsLeft; split_ifs <;> omega)
  | succ f ih =>
    intro attempt pos hf ha
    obtain ⟨k, hk⟩ : ∃ k, 10 - attempt = k + 1 := ⟨9 - attempt, by omega⟩
    rw [hk]
    unfold cryptDhmKeyMakeRec generateBounded
    split
    · rfl
    · rename_i e pos1 ht
      by_cases hlt : (attempt + 1) % 256 < 10
      · have hmod : (attempt + 1) % 256 = attempt + 1 := Nat.mod_eq_of_lt (by omega)
        rw [dif_pos hlt]
        simp only
        have hk2 : k = 10 - (attempt + 1) % 256 := by omega
        rw [hk2]
        exact ih _ _ _ (by omega)
      · have hmod : (attempt + 1) % 256 = attempt + 1 := Nat.mod_eq_of_lt (by omega)
        rw [dif_neg hlt]
        have hk0 : k = 0 := by omega
        subst hk0
        simp [assertionSt, generateBounded]

theorem cryptDhmCheckRange_iff (param P : Nat) :
    _cryptDhmCheckRange param P = true ↔ 2 ≤ param ∧ param + 2 ≤ P := by
  unfold _cryptDhmCheckRange
  simp only [Bool.and_eq_true, decide_eq_true_eq]
  omega

/-- C2: every key pair that `cryptDhmKeyMake` returns has a backend whose
modulus `P` and generator `G` are those of the requested type and whose public
value is `GX = G^X mod P` with `2 <= GX <= P - 2`, that is, it passes
`_cryptDhmCheckRange(GX, P)`. -/
theorem keymake_public_in_range (h : CryptHdr) (b : Polarssl) (rng : Nat → Option Nat)
    (keyType attempt pos pos1 : Nat) (key : CRYPTDHM_T)
    (hk : cryptDhmKeyMake h b rng keyType attempt pos = (.ret (some key), pos1)) :
    ∃ dhm P G, key.backendKey = some dhm ∧ dhmGroup h b keyType = some (P, G) ∧
      dhm.P = P ∧ dhm.G = G ∧ dhm.GX = G ^ dhm.X % P ∧
      2 ≤ dhm.GX ∧ dhm.GX + 2 ≤ P ∧ _cryptDhmCheckRange dhm.GX dhm.P = true := by
  obtain ⟨key1, pos0, hkey, ht⟩ := cryptDhmKeyMakeRec_ret h b rng keyType _ _ _ _ _ _ hk
  obtain ⟨P, G, X, hg, _, _, _, _, _, _, hr, hkeq⟩ := cryptDhmKeyMakeTry_ok ht
  rw [← Option.some.inj hkey] at hkeq
  subst hkeq
  exact ⟨_, P, G, rfl, hg, rfl, rfl, rfl, ((cryptDhmCheckRange_iff _ _).1 hr).1,
    ((cryptDhmCheckRange_iff _ _).1 hr).2, hr⟩

set_option maxRecDepth 100000 in
theorem keymake_public_in_range_witness :
    cryptDhmKeyMake sampleHdr samplePolarssl rngB 16 0 0 = (.ret (some keyB), 2) ∧
    ∃ dhm P G, keyB.backendKey = some dhm ∧ dhmGroup sampleHdr samplePolarssl 16 = some (P, G) ∧
      dhm.P = P ∧ dhm.G = G ∧ dhm.GX = G ^ dhm.X % P ∧
      2 ≤ dhm.GX ∧ dhm.GX + 2 ≤ P ∧ _cryptDhmCheckRange dhm.GX dhm.P = true :=
  ⟨by decide!,
   keymake_public_in_range sampleHdr samplePolarssl rngB 16 0 0 2 keyB (by decide!)⟩

/-- C9: `cryptDhmKeyMake` called with `attempt = 0` is the bounded generation of
the specification with a budget of 10: at most ten passes, each a whole
generation from scratch, the key of the first pass that passes every check is
returned, and ten failed passes end in the fatal assertion -502718; for no
`attempt` does the call return `NULL` to its caller. -/
theorem keymake_bounded_retry (h : CryptHdr) (b : Polarssl) (rng : Nat → Option Nat)
    (keyType pos : Nat) :
    cryptDhmKeyMake h b rng keyType 0 pos = generateBounded h b rng keyType 10 pos ∧
    ((∃ key p, cryptDhmKeyMake h b rng keyType 0 pos = (.ret (some key), p)) ∨
      (∃ p, cryptDhmKeyMake h b rng keyType 0 pos = (.fatal (-502718), p))) ∧
    ∀ attempt p, cryptDhmKeyMake h b rng keyType attempt pos ≠ (.ret none, p) := by
  have heq : cryptDhmKeyMake h b rng keyType 0 pos = generateBounded h b rng keyType 10 pos :=
    cryptDhmKeyMakeRec_eq_bounded h b rng keyType _ 0 pos _ (by decide)
  refine ⟨heq, ?_, ?_⟩
  · rw [heq]
    clear heq
    generalize (10 : Nat) = budget
    induction budget generalizing pos with
    | zero => exact Or.inr ⟨pos, rfl⟩
    | succ k ih =>
      unfold generateBounded
      split
      · rename_i key pos1 _
        exact Or.inl ⟨key, pos1, rfl⟩
      · exact ih _
  · intro attempt p hr
    obtain ⟨key, _, hkey, _⟩ := cryptDhmKeyMakeRec_ret h b rng keyType _ _ _ _ _ _ hr
    exact Option.noConfusion hkey

theorem keymake_bounded_retry_witness :
    cryptDhmKeyMake sampleHdr samplePolarssl rngB 16 0 0 =
      generateBounded sampleHdr samplePolarssl rngB 16 10 0 :=
  (keymake_bounded_retry sampleHdr samplePolarssl rngB 16 0).1

/-! ## Shared secret: agreement, mis-sized input, length window -/

theorem dhmGroup_mem {h : CryptHdr} {b : Polarssl} {keyType P G : Nat}
    (hg : dhmGroup h b keyType = some (P, G)) : (keyType : Int) ∈ dhmTypes h := by
  unfold dhmGroup at hg
  unfold dhmTypes
  split_ifs at hg with h1 h2 h3
  · simp [h1]
  · simp [h2]
  · simp [h3]

theorem typeByLen_lenByType {h : CryptHdr} {b : Polarssl} {keyType P G : Nat}
    (hg : dhmGroup h b keyType = some (P, G)) (h256 : keyType < 256) :
    cryptDhmKeyTypeByLen h (cryptDhmKeyLenByType h keyType) = keyType := by
  have := dhm_round_trip h keyType (dhmGroup_mem hg) (by omega) (by omega)
  exact_mod_cast this

theorem mpi_read_beBytes_size {len x : Nat} (hx : mpi_size x = len) :
    mpi_read_binary ((beBytes len x).take len) = x := by
  rw [List.take_of_length_le (by rw [beBytes_length]), mpi_read_beBytes]
  exact Nat.mod_eq_of_lt (hx ▸ mpi_size_bound x)

theorem cryptShaAtomic_ret {b : Polarssl} {st st1 : ShaState} {input : List Nat}
    {d : CRYPTSHA1_T} (hr : cryptShaAtomic b st input = (.ret d, st1)) :
    d = b.sha1 input ∧ st.shaClean = true := by
  unfold cryptShaAtomic assertionSt at hr
  split_ifs at hr with h1 h2
  · simp only [sha1_finish, sha1_update, sha1_starts, List.nil_append, Prod.mk.injEq,
      Outcome.ret.injEq] at hr
    exact ⟨hr.1.symm, by simpa using h1⟩
  · simp at hr
  · simp at hr

theorem secret_for_good_key (h : CryptHdr) (b : Polarssl) (sha : ShaState) (buff : List Nat)
    {keyType P G X GY : Nat} (hkt : keyType ≠ 0) (h256 : keyType < 256)
    (hg : dhmGroup h b keyType = some (P, G))
    (hL : cryptDhmKeyLenByType h keyType ≠ 0)
    (hP : mpi_size P = cryptDhmKeyLenByType h keyType)
    (hX : mpi_size X = cryptDhmKeyLenByType h keyType)
    (hGX : mpi_size (G ^ X % P) = cryptDhmKeyLenByType h keyType)
    (hodd : P % 2 = 1) (hrX : _cryptDhmCheckRange (G ^ X % P) P = true)
    (hGY : mpi_size GY = cryptDhmKeyLenByType h keyType)
    (hrY : _cryptDhmCheckRange GY P = true) :
    (cryptDhmSecretForNeigh h b sha
      (some { backendKey := some { len := cryptDhmKeyLenByType h keyType, P := P, G := G, X := X,
                                   GX := G ^ X % P, GY := 0, K := 0 },
              rawGXType := keyType, rawGXLen := cryptDhmKeyLenByType h keyType })
      (beBytes (cryptDhmKeyLenByType h keyType) GY) (cryptDhmKeyLenByType h keyType) buff).1 =
    sharedSecretOf h b sha (cryptDhmKeyLenByType h keyType) (GY ^ X % P) := by
  have hrt := typeByLen_lenByType hg h256
  have hread := mpi_read_beBytes_size hGY
  generalize hLdef : cryptDhmKeyLenByType h keyType = L at *
  have hexp := mpi_exp_mod_odd (A := GY) (E := X) hodd
  unfold cryptDhmSecretForNeigh sharedSecretOf
  simp only [hkt, if_false, hrt, hread, ne_eq, not_true_eq_false, false_or]
  by_cases hmax : h.CRYPT_DHM_MAX_LEN < L
  · simp [hmax, secretFinish]
  · have hcheck : cryptDhmKeyCheck h
        { backendKey := some { len := L, P := P, G := G, X := X, GX := G ^ X % P, GY := GY, K := 0 },
          rawGXType := keyType, rawGXLen := L } = true := by
      simp [cryptDhmKeyCheck, hkt, hLdef, hL, hP, hX, hGX, hGY, hrX, hrY]
    have hcalc : dhm_calc_secret
        { len := L, P := P, G := G, X := X, GX := G ^ X % P, GY := GY, K := 0 } L =
        some ({ len := L, P := P, G := G, X := X, GX := G ^ X % P, GY := GY, K := GY ^ X % P },
          beBytes (mpi_size (GY ^ X % P)) (GY ^ X % P), mpi_size (GY ^ X % P)) := by
      simp [dhm_calc_secret, hrY, hexp]
    simp only [hmax, if_false, hcheck, hcalc, not_true_eq_false]
    by_cases hwin : mpi_size (GY ^ X % P) > L ∨ mpi_size (GY ^ X % P) < L / 4 * 3
    · simp [hwin, secretFinish]
    · have htake : (beBytes (mpi_size (GY ^ X % P)) (GY ^ X % P) ++
          List.drop (mpi_size (GY ^ X % P)) buff).take (mpi_size (GY ^ X % P)) =
          beBytes (mpi_size (GY ^ X % P)) (GY ^ X % P) := by
        rw [List.take_append_of_le_length (by rw [beBytes_length]),
          List.take_of_length_le (by rw [beBytes_length])]
      simp only [hwin, if_false, htake]
      rcases hsha : cryptShaAtomic b sha (beBytes (mpi_size (GY ^ X % P)) (GY ^ X % P)) with ⟨r, st⟩
      cases r <;> simp [secretFinish]


theorem cryptDhmPubKeyGetRaw_good {L keyType P G X GX : Nat} (hkt : keyType ≠ 0) (hL : L ≠ 0)
    (hGX : mpi_size GX = L) :
    cryptDhmPubKeyGetRaw
      (some { backendKey := some { len := L, P := P, G := G, X := X, GX := GX, GY := 0, K := 0 },
              rawGXType := keyType, rawGXLen := L }) L = .ret (beBytes L GX) := by
  simp [cryptDhmPubKeyGetRaw, assertion, hkt, hL, hGX, mpi_write_binary]

theorem sharedSecretOf_some {h : CryptHdr} {b : Polarssl} {sha : ShaState} {len K : Nat}
    {s : CRYPTSHA1_T} (hs : sharedSecretOf h b sha len K = .ret (some s)) :
    s = b.sha1 (beBytes (mpi_size K) K) ∧ (len / 4) * 3 ≤ mpi_size K ∧ mpi_size K ≤ len := by
  unfold sharedSecretOf at hs
  split_ifs at hs with h1 h2
  · simp at hs
  · simp at hs
  · split at hs
    · rename_i secret st hsha
      simp only [Outcome.ret.injEq, Option.some.injEq] at hs
      subst hs
      exact ⟨(cryptShaAtomic_ret hsha).1, by omega, by omega⟩
    · simp at hs
    · simp at hs

/-- C3: for every DH key pair and every peer input whose length
`neighRawKeyLen` does not map through `cryptDhmKeyTypeByLen` to the pair's own
type, or differs from the pair's modulus length `dhm->len`,
`cryptDhmSecretForNeigh` returns `NULL`: no secret. -/
theorem secret_missized_none (h : CryptHdr) (b : Polarssl) (sha : ShaState)
    (dhm : dhm_context) (rawGXType rawGXLen : Nat) (neighRawKey : List Nat)
    (neighRawKeyLen : Nat) (buff : List Nat)
    (hm : cryptDhmKeyTypeByLen h neighRawKeyLen ≠ rawGXType ∨ dhm.len ≠ neighRawKeyLen) :
    (cryptDhmSecretForNeigh h b sha
      (some { backendKey := some dhm, rawGXType := rawGXType, rawGXLen := rawGXLen })
      neighRawKey neighRawKeyLen buff).1 = .ret none := by
  have hm2 : cryptDhmKeyTypeByLen h neighRawKeyLen ≠ rawGXType ∨ dhm.len ≠ neighRawKeyLen ∨
      h.CRYPT_DHM_MAX_LEN < neighRawKeyLen := hm.elim Or.inl (fun x => Or.inr (Or.inl x))
  unfold cryptDhmSecretForNeigh
  simp only
  by_cases h1 : rawGXType = 0
  · rw [if_pos h1]; rfl
  · rw [if_neg h1, if_pos hm2]; rfl

theorem secret_missized_none_witness :
    (cryptDhmKeyTypeByLen sampleHdr 256 ≠ 16 ∨
      (⟨128, 23, 5, 6, 8, 0, 0⟩ : dhm_context).len ≠ 256) ∧
    (cryptDhmSecretForNeigh sampleHdr samplePolarssl cleanSha
      (some { backendKey := some ⟨128, 23, 5, 6, 8, 0, 0⟩, rawGXType := 16, rawGXLen := 128 })
      (List.replicate 256 1) 256 []).1 = .ret none :=
  ⟨Or.inl (by decide),
   secret_missized_none sampleHdr samplePolarssl cleanSha ⟨128, 23, 5, 6, 8, 0, 0⟩ 16 128
     (List.replicate 256 1) 256 [] (Or.inl (by decide))⟩



theorem typeByLen_ne_zero_mem {h : CryptHdr} {len : Int}
    (hne : cryptDhmKeyTypeByLen h len ≠ 0) : len ∈ dhmLens := by
  by_contra hl
  simp only [dhmLens, List.mem_cons, List.mem_singleton, List.not_mem_nil, or_false,
    not_or] at hl
  exact hne (by simp [cryptDhmKeyTypeByLen, hl, u8])

theorem dhm_calc_secret_some {ctx ctx2 : dhm_context} {olen n : Nat} {raw : List Nat}
    (hc : dhm_calc_secret ctx olen = some (ctx2, raw, n)) :
    n = mpi_size (ctx.GY ^ ctx.X % ctx.P) ∧
    raw = beBytes (mpi_size (ctx.GY ^ ctx.X % ctx.P)) (ctx.GY ^ ctx.X % ctx.P) := by
  unfold dhm_calc_secret at hc
  split_ifs at hc with h1 h2
  split at hc
  · simp at hc
  · rename_i K hK
    obtain ⟨rfl, _⟩ := mpi_exp_mod_eq hK
    simp only [Option.some.injEq, Prod.mk.injEq] at hc
    exact ⟨hc.2.2.symm, hc.2.1.symm⟩

theorem cryptDhmKeyCheck_len {h : CryptHdr} {key : CRYPTDHM_T} {dhm : dhm_context}
    (hb : key.backendKey = some dhm) (hc : cryptDhmKeyCheck h key = true) :
    dhm.len = cryptDhmKeyLenByType h key.rawGXType := by
  unfold cryptDhmKeyCheck at hc
  rw [hb] at hc
  simp only at hc
  split_ifs at hc with h1 h2 h3
  simpa using h3

/-- C4: `cryptDhmSecretForNeigh` returns a secret only if the byte length `n`
of the raw shared value `GY^X mod P` satisfies `(len / 4) * 3 <= n <= len`, the
test of the code with integer division; then `len` is the registered length of
the pair's type, `(3/4) * len <= n`, and the secret is the SHA-1 of the `n`
bytes.  For the registered lengths 128, 256 and 384 the expression
`(len / 4) * 3` is exactly three quarters of `len`. -/
theorem secret_length_window (h : CryptHdr) (b : Polarssl) (sha : ShaState)
    (myDhm : Option CRYPTDHM_T) (neighRawKey : List Nat) (neighRawKeyLen : Nat)
    (buff : List Nat) :
    (∀ len : Nat, (len : Int) ∈ dhmLens → 4 * ((len / 4) * 3) = 3 * len) ∧
    ∀ s, (cryptDhmSecretForNeigh h b sha myDhm neighRawKey neighRawKeyLen buff).1 =
        .ret (some s) →
      ∃ key dhm, myDhm = some key ∧ key.backendKey = some dhm ∧
        (neighRawKeyLen : Int) ∈ dhmLens ∧
        neighRawKeyLen = cryptDhmKeyLenByType h key.rawGXType ∧
        (neighRawKeyLen / 4) * 3 ≤
          mpi_size (mpi_read_binary (neighRawKey.take neighRawKeyLen) ^ dhm.X % dhm.P) ∧
        mpi_size (mpi_read_binary (neighRawKey.take neighRawKeyLen) ^ dhm.X % dhm.P) ≤
          neighRawKeyLen ∧
        3 * neighRawKeyLen ≤
          4 * mpi_size (mpi_read_binary (neighRawKey.take neighRawKeyLen) ^ dhm.X % dhm.P) ∧
        s = b.sha1 (beBytes
          (mpi_size (mpi_read_binary (neighRawKey.take neighRawKeyLen) ^ dhm.X % dhm.P))
          (mpi_read_binary (neighRawKey.take neighRawKeyLen) ^ dhm.X % dhm.P)) := by
  have hquarter : ∀ len : Nat, (len : Int) ∈ dhmLens → 4 * ((len / 4) * 3) = 3 * len := by
    intro len hl
    simp only [dhmLens, CRYPT_DHM1024_LEN, CRYPT_DHM2048_LEN, CRYPT_DHM3072_LEN,
      List.mem_cons, List.mem_singleton, List.not_mem_nil, or_false] at hl
    norm_num at hl
    omega
  refine ⟨hquarter, ?_⟩
  intro s hs
  unfold cryptDhmSecretForNeigh at hs
  split at hs
  · simp [secretFinish] at hs
  rename_i key
  split at hs
  · simp [secretFinish] at hs
  rename_i dhm hb
  simp only at hs
  split at hs
  · simp [secretFinish] at hs
  rename_i hty
  split at hs
  · simp [secretFinish] at hs
  rename_i hsz
  split at hs
  · simp [secretFinish] at hs
  rename_i hchk
  split at hs
  · simp [secretFinish] at hs
  rename_i dhm2 raw n hcalc
  split at hs
  · simp [secretFinish] at hs
  rename_i hwin
  simp only [not_or, not_not, not_lt, gt_iff_lt] at hsz hwin
  obtain ⟨hn, hraw⟩ := dhm_calc_secret_some hcalc
  simp only at hn hraw
  have hmem : (neighRawKeyLen : Int) ∈ dhmLens :=
    typeByLen_ne_zero_mem (by rw [hsz.1]; exact hty)
  have hlen := cryptDhmKeyCheck_len rfl (by simpa using hchk)
  simp only at hlen
  have htake : (raw ++ List.drop n buff).take n = raw := by
    rw [List.take_append_of_le_length (by rw [hraw, beBytes_length, hn]),
      List.take_of_length_le (by rw [hraw, beBytes_length, hn])]
  rw [htake] at hs
  split at hs
  · rename_i secret sha1 hsha
    simp only [secretFinish, Outcome.ret.injEq, Option.some.injEq] at hs
    have hq := hquarter neighRawKeyLen hmem
    refine ⟨key, dhm, rfl, hb, hmem, by omega, by omega, by omega, by omega, ?_⟩
    rw [← hs, (cryptShaAtomic_ret hsha).1, hraw]
  · simp at hs
  · simp at hs


set_option maxRecDepth 100000 in
theorem secret_length_window_witness :
    ((((128 : Nat) : Int) ∈ dhmLens) ∧ 4 * ((128 / 4) * 3) = 3 * 128) ∧
    (cryptDhmSecretForNeigh sampleHdr samplePolarssl cleanSha (some keyA) rawB 128 []).1 =
      .ret (some sampleSecret) ∧
    ∃ key dhm, some keyA = some key ∧ key.backendKey = some dhm ∧
      ((128 : Nat) : Int) ∈ dhmLens ∧
      128 = cryptDhmKeyLenByType sampleHdr key.rawGXType ∧
      (128 / 4) * 3 ≤ mpi_size (mpi_read_binary (rawB.take 128) ^ dhm.X % dhm.P) ∧
      mpi_size (mpi_read_binary (rawB.take 128) ^ dhm.X % dhm.P) ≤ 128 ∧
      3 * 128 ≤ 4 * mpi_size (mpi_read_binary (rawB.take 128) ^ dhm.X % dhm.P) ∧
      sampleSecret = samplePolarssl.sha1 (beBytes
        (mpi_size (mpi_read_binary (rawB.take 128) ^ dhm.X % dhm.P))
        (mpi_read_binary (rawB.take 128) ^ dhm.X % dhm.P)) :=
  ⟨⟨by decide,
    (secret_length_window sampleHdr samplePolarssl cleanSha (some keyA) rawB 128 []).1 128
      (by decide)⟩,
   by decide!,
   (secret_length_window sampleHdr samplePolarssl cleanSha (some keyA) rawB 128 []).2
     sampleSecret (by decide!)⟩

/-! ## Random bytes: entropy pass-through, digest chaining, counter wrap -/

theorem randStream_length (b : Polarssl) (s : List Nat) :
    ∀ k, (randStream b s k).length = 20 * k := by
  intro k
  induction k with
  | zero => rfl
  | succ k ih => simp [randStream, ih, CRYPTSHA1_T.size_eq]; omega

theorem cryptRandLoop_spec (b : Polarssl) (seed0 : List Nat) (outLen : Nat)
    (hmax : outLen ≤ 4294967280) :
    ∀ (fuel k : Nat) (sha : ShaState) (out : List Nat),
      sha.shaClean = true → sha.sha_ctx = [] → out.length = outLen →
      20 * k < outLen + 20 →
      out.take (min (20 * k) outLen) = (randStream b seed0 k).take outLen →
      (outLen + 19) / 20 - k < fuel →
      cryptRandLoop b seed0 outLen fuel sha (randBlock b seed0 k) out (20 * k) =
        some (.ret ((randStream b seed0 ((outLen + 19) / 20)).take outLen), sha) := by
  intro fuel
  induction fuel with
  | zero => intro k sha out _ _ _ _ _ hf; omega
  | succ f ih =>
    intro k sha out hc hctx hlen hk hinv hf
    unfold cryptRandLoop
    by_cases hgt : outLen > 20 * k
    · rw [if_pos hgt]
      have hin : 0 < (seed0 ++ (randBlock b seed0 k).bytes).length := by
        rw [List.length_append, CRYPTSHA1_T.size_eq]; omega
      rw [cryptShaAtomic_clean b sha _ hc hin]
      have hsha : ({ sha with sha_ctx := [] } : ShaState) = sha := by
        cases sha; simp_all
      simp only [hsha]
      have hpos : (20 * k + 20) % 2 ^ 32 = 20 * (k + 1) := by
        rw [Nat.mod_eq_of_lt (by omega)]; ring
      rw [hpos]
      have hblk : b.sha1 (seed0 ++ (randBlock b seed0 k).bytes) = randBlock b seed0 (k + 1) := rfl
      rw [hblk]
      apply ih (k + 1) sha _ hc hctx
      · simp only [memcpy, List.length_append, List.length_take, List.length_drop,
          CRYPTSHA1_T.size_eq, hlen]
        omega
      · omega
      · have hmin : min (20 * k) outLen = 20 * k := by omega
        rw [hmin] at hinv
        have hrs : (randStream b seed0 k).take outLen = randStream b seed0 k :=
          List.take_of_length_le (by rw [randStream_length]; omega)
        rw [hrs] at hinv
        have hblen := (randBlock b seed0 (k + 1)).size_eq
        have htk : (randBlock b seed0 (k + 1)).bytes.take (min (outLen - 20 * k) 20) =
            (randBlock b seed0 (k + 1)).bytes.take (outLen - 20 * k) := by
          by_cases hle : outLen - 20 * k ≤ 20
          · rw [Nat.min_eq_left hle]
          · rw [Nat.min_eq_right (by omega), List.take_of_length_le (by omega),
              List.take_of_length_le (by omega)]
        have hl1 : ((randBlock b seed0 (k + 1)).bytes.take (min (outLen - 20 * k) 20)).length =
            min (outLen - 20 * k) 20 := by
          rw [List.length_take, hblen]; omega
        have hmin2 : min (20 * (k + 1)) outLen = 20 * k + min (outLen - 20 * k) 20 := by omega
        have hleft : (memcpy out (20 * k)
            ((randBlock b seed0 (k + 1)).bytes.take (min (outLen - 20 * k) 20))).take
              (20 * k + min (outLen - 20 * k) 20) =
            randStream b seed0 k ++
              (randBlock b seed0 (k + 1)).bytes.take (min (outLen - 20 * k) 20) := by
          unfold memcpy
          rw [hinv]
          apply List.take_left'
          rw [List.length_append, randStream_length, hl1]
        have hright : (randStream b seed0 (k + 1)).take outLen =
            randStream b seed0 k ++ (randBlock b seed0 (k + 1)).bytes.take (outLen - 20 * k) := by
          simp only [randStream]
          rw [List.take_append_eq_append_take, randStream_length, hrs]
        rw [hmin2, hleft, hright, htk]
      · omega
    · rw [if_neg hgt]
      have hk2 : (outLen + 19) / 20 = k := by omega
      have hmin : min (20 * k) outLen = outLen := by omega
      rw [hmin, List.take_of_length_le (by omega)] at hinv
      rw [hk2, hinv]


theorem entropy_func_length (e : Nat → Nat) (len : Nat) :
    ((List.range len).map (fun i => e i % 256)).length = len := by
  rw [List.length_map, List.length_range]

/-- The request of at most twenty bytes: the output is exactly the `outLen`
bytes the entropy provider delivers, and no hashing takes place (the digest
state is untouched, whatever its flag). -/
theorem cryptRand_small (b : Polarssl) (e : Nat → Nat) (fuel : Nat) (sha : ShaState)
    (out : List Nat) (outLen : Nat) (hE : b.ENTROPY_BLOCK_SIZE > 20)
    (hlen : out.length = outLen) (h20 : outLen ≤ 20) :
    cryptRand b (some e) fuel sha out outLen =
      some (.ret ((List.range outLen).map (fun i => e i % 256)), sha) := by
  unfold cryptRand
  simp only [hE, not_true_eq_false, if_false, h20, if_true, entropy_func, Option.map_some']
  simp only [memcpy, List.take_zero, List.nil_append, Nat.zero_add, entropy_func_length]
  rw [List.drop_of_length_le (by omega), List.append_nil]

/-- The request of more than twenty and at most 4294967280 bytes: one seed `s`
of twenty bytes is drawn and, given enough iterations, the output is the first
`outLen` bytes of `b1 || b2 || ..` with `b0 = SHA1(s)`, `b(k+1) = SHA1(s || b(k))`. -/
theorem cryptRand_expand (b : Polarssl) (e : Nat → Nat) (fuel : Nat) (sha : ShaState)
    (out : List Nat) (outLen : Nat) (hE : b.ENTROPY_BLOCK_SIZE > 20)
    (hc : sha.shaClean = true) (hlen : out.length = outLen) (h20 : 20 < outLen)
    (hmax : outLen ≤ 4294967280) (hfuel : (outLen + 19) / 20 < fuel) :
    cryptRand b (some e) fuel sha out outLen =
      some (.ret ((randStream b ((List.range 20).map (fun i => e i % 256))
        ((outLen + 19) / 20)).take outLen), { sha with sha_ctx := [] }) := by
  unfold cryptRand
  have hn : ¬ outLen ≤ 20 := by omega
  simp only [hE, not_true_eq_false, if_false, hn, entropy_func, Option.map_some']
  rw [cryptShaAtomic_clean b sha _ hc (by rw [entropy_func_length]; omega)]
  simp only
  have := cryptRandLoop_spec b ((List.range 20).map (fun i => e i % 256)) outLen hmax fuel 0
    { sha with sha_ctx := [] } out hc rfl hlen (by omega) (by simp [randStream]) (by omega)
  simpa [randBlock] using this

theorem cryptRandLoop_wraps (b : Polarssl) (seed0 : List Nat) :
    ∀ (fuel : Nat) (sha : ShaState) (seed1 : CRYPTSHA1_T) (out : List Nat) (outPos : Nat),
      sha.shaClean = true → outPos % 4 = 0 → outPos < 2 ^ 32 →
      cryptRandLoop b seed0 4294967295 fuel sha seed1 out outPos = none := by
  intro fuel
  induction fuel with
  | zero => intro sha seed1 out outPos _ _ _; rfl
  | succ f ih =>
    intro sha seed1 out outPos hc h4 hlt
    unfold cryptRandLoop
    have hgt : 4294967295 > outPos := by omega
    rw [if_pos hgt]
    rw [cryptShaAtomic_clean b sha _ hc
      (by rw [List.length_append, CRYPTSHA1_T.size_eq]; omega)]
    simp only
    exact ih _ _ _ _ hc (by omega) (Nat.mod_lt _ (by norm_num))

/-- C10, at the failing input: for `outLen = 4294967295` (a `uint32_t`), with a
clean digest context and a working entropy provider, the `uint32_t` counter
`outPos` wraps past `outLen` and stays a multiple of 4, so the loop of
`cryptRand` never leaves: no number of iterations yields an output. -/
theorem cryptRand_large_request_never_returns (b : Polarssl) (e : Nat → Nat) (fuel : Nat)
    (sha : ShaState) (out : List Nat) (hE : b.ENTROPY_BLOCK_SIZE > 20)
    (hc : sha.shaClean = true) :
    cryptRand b (some e) fuel sha out 4294967295 = none := by
  unfold cryptRand
  simp only [hE, not_true_eq_false, if_false, entropy_func, Option.map_some']
  simp only [show ¬ (4294967295 ≤ 20) by omega, if_false]
  rw [cryptShaAtomic_clean b sha _ hc (by rw [entropy_func_length]; omega)]
  simp only
  exact cryptRandLoop_wraps b _ fuel _ _ out 0 hc rfl (by norm_num)

theorem cryptRand_large_request_never_returns_witness :
    (samplePolarssl.ENTROPY_BLOCK_SIZE > 20 ∧ cleanSha.shaClean = true) ∧
    cryptRand samplePolarssl (some (fun i => i + 3)) 1000 cleanSha
      (List.replicate 4294967295 0) 4294967295 = none :=
  ⟨⟨by decide, rfl⟩,
   cryptRand_large_request_never_returns samplePolarssl (fun i => i + 3) 1000 cleanSha
     (List.replicate 4294967295 0) (by decide) rfl⟩

theorem cryptRand_small_witness :
    cryptRand samplePolarssl (some (fun i => i + 3)) 0 dirtySha [0, 0, 0, 0] 4 =
      some (.ret [3, 4, 5, 6], dirtySha) := by decide

theorem cryptRand_expand_witness :
    cryptRand samplePolarssl (some (fun i => i + 3)) 4 cleanSha (List.replicate 45 0) 45 =
      some (.ret ((randStream samplePolarssl ((List.range 20).map (fun i => (i + 3) % 256))
        ((45 + 19) / 20)).take 45), cleanSha) :=
  cryptRand_expand samplePolarssl (fun i => i + 3) 4 cleanSha (List.replicate 45 0) 45
    (by decide) rfl (by decide) (by decide) (by decide) (by decide)


/-! ## Key generation: the sampling loop -/

theorem shiftBelow_spec (P : Nat) (hP : 0 < P) :
    ∀ (fuel X0 : Nat), X0 < fuel →
      ∃ k, shiftBelow fuel X0 P = X0 >>> k ∧ X0 >>> k < P ∧ ∀ j, j < k → P ≤ X0 >>> j := by
  intro fuel
  induction fuel with
  | zero => intro X0 h; omega
  | succ f ih =>
    intro X0 hf
    unfold shiftBelow
    by_cases hge : X0 ≥ P
    · rw [if_pos hge]
      have hlt : X0 / 2 < f := by omega
      obtain ⟨k, hk1, hk2, hk3⟩ := ih (X0 / 2) hlt
      refine ⟨k + 1, ?_, ?_, ?_⟩
      · rw [hk1, Nat.shiftRight_eq_div_pow, Nat.shiftRight_eq_div_pow, Nat.div_div_eq_div_mul,
          pow_succ, Nat.mul_comm]
      · rw [Nat.shiftRight_eq_div_pow] at hk2 ⊢
        rwa [pow_succ, Nat.mul_comm, ← Nat.div_div_eq_div_mul]
      · intro j hj
        cases j with
        | zero => simpa using hge
        | succ i =>
          have := hk3 i (by omega)
          rw [Nat.shiftRight_eq_div_pow] at this ⊢
          rwa [pow_succ, Nat.mul_comm, ← Nat.div_div_eq_div_mul]
    · rw [if_neg hge]
      exact ⟨0, by simp, by simpa using hge, by intro j hj; omega⟩

theorem shiftBelow_fuel (P : Nat) (hP : 0 < P) (X0 fuel : Nat) (hf : X0 < fuel) :
    shiftBelow fuel X0 P = shiftBelow (X0 + 1) X0 P := by
  obtain ⟨k, hk1, hk2, hk3⟩ := shiftBelow_spec P hP fuel X0 hf
  obtain ⟨k', hk1', hk2', hk3'⟩ := shiftBelow_spec P hP (X0 + 1) X0 (Nat.lt_succ_self _)
  have : k = k' := by
    rcases Nat.lt_trichotomy k k' with h | h | h
    · exact absurd (hk3' k h) (by omega)
    · exact h
    · exact absurd (hk3 k' h) (by omega)
  rw [hk1, hk1', this]


theorem sampleX_draws (rng : Nat → Option Nat) (P pSize : Nat) :
    ∀ (left pos : Nat), pos < (sampleX rng P pSize left pos).2 ∧
      (sampleX rng P pSize left pos).2 ≤ pos + left + 1 := by
  intro left
  induction left with
  | zero =>
    intro pos
    unfold sampleX
    cases mpi_fill_random rng pSize pos <;> simp
  | succ l ih =>
    intro pos
    unfold sampleX
    cases mpi_fill_random rng pSize pos with
    | none => simp
    | some X0 =>
      simp only
      split_ifs with hr
      · simp
      · have := ih (pos + 1)
        omega

theorem sampleX_again (rng : Nat → Option Nat) (P pSize left pos X0 : Nat)
    (hd : mpi_fill_random rng pSize pos = some X0)
    (hr : _cryptDhmCheckRange (shiftBelow (X0 + 1) X0 P) P = false) :
    sampleX rng P pSize (left + 1) pos = sampleX rng P pSize left (pos + 1) := by
  conv_lhs => unfold sampleX
  simp [hd, hr]

theorem sampleX_ok (rng : Nat → Option Nat) (P pSize : Nat) :
    ∀ (left pos X pos1 : Nat), sampleX rng P pSize left pos = (.ok X, pos1) →
      _cryptDhmCheckRange X P = true ∧ pos < pos1 ∧ pos1 ≤ pos + left ∧
      (∃ X0, mpi_fill_random rng pSize (pos1 - 1) = some X0 ∧ X = shiftBelow (X0 + 1) X0 P) ∧
      ∀ i, pos ≤ i → i < pos1 - 1 →
        ∃ Xi, mpi_fill_random rng pSize i = some Xi ∧
          _cryptDhmCheckRange (shiftBelow (Xi + 1) Xi P) P = false := by
  intro left
  induction left with
  | zero =>
    intro pos X pos1 hs
    unfold sampleX at hs
    cases hd : mpi_fill_random rng pSize pos <;> simp [hd] at hs
  | succ l ih =>
    intro pos X pos1 hs
    unfold sampleX at hs
    cases hd : mpi_fill_random rng pSize pos with
    | none => simp [hd] at hs
    | some X0 =>
      simp only [hd] at hs
      by_cases hr : _cryptDhmCheckRange (shiftBelow (X0 + 1) X0 P) P = true
      · rw [if_pos hr] at hs
        simp only [Prod.mk.injEq, Except.ok.injEq] at hs
        obtain ⟨rfl, rfl⟩ := hs
        refine ⟨hr, by omega, by omega, ⟨X0, by simpa using hd, rfl⟩, ?_⟩
        intro i h1 h2
        omega
      · rw [if_neg hr] at hs
        obtain ⟨h1, h2, h3, h4, h5⟩ := ih (pos + 1) X pos1 hs
        refine ⟨h1, by omega, by omega, h4, ?_⟩
        intro i hi1 hi2
        by_cases hip : i = pos
        · subst hip
          exact ⟨X0, hd, by simpa using hr⟩
        · exact h5 i (by omega) hi2

/-- C14: in `cryptDhmKeyMake`, for every modulus `P > 0` and every drawn value
`X0`, the loop `while (X >= P) X >>= 1` terminates (more fuel changes nothing)
and leaves `X = X0 >> k` for the least `k` with `(X0 >> k) < P`; the sampling
loop accepts `X` only if `2 <= X <= P - 2`, within the first eleven draws, after
rejecting every earlier draw; a rejected draw is followed by another draw; and
the attempt ends after at least one and at most twelve draws. -/
theorem keymake_sampling (rng : Nat → Option Nat) (P pSize pos : Nat) (hP : 0 < P) :
    (∀ X0, ∃ k, shiftBelow (X0 + 1) X0 P = X0 >>> k ∧ X0 >>> k < P ∧
      (∀ j, j < k → P ≤ X0 >>> j) ∧
      ∀ fuel, X0 < fuel → shiftBelow fuel X0 P = X0 >>> k) ∧
    (∀ X pos1, sampleX rng P pSize 11 pos = (.ok X, pos1) →
      2 ≤ X ∧ X + 2 ≤ P ∧ pos < pos1 ∧ pos1 ≤ pos + 11 ∧
      (∃ X0, mpi_fill_random rng pSize (pos1 - 1) = some X0 ∧ X = shiftBelow (X0 + 1) X0 P) ∧
      ∀ i, pos ≤ i → i < pos1 - 1 →
        ∃ Xi, mpi_fill_random rng pSize i = some Xi ∧
          _cryptDhmCheckRange (shiftBelow (Xi + 1) Xi P) P = false) ∧
    (∀ left X0, mpi_fill_random rng pSize pos = some X0 →
      _cryptDhmCheckRange (shiftBelow (X0 + 1) X0 P) P = false →
      sampleX rng P pSize (left + 1) pos = sampleX rng P pSize left (pos + 1)) ∧
    (pos < (sampleX rng P pSize 11 pos).2 ∧ (sampleX rng P pSize 11 pos).2 ≤ pos + 12) := by
  refine ⟨?_, ?_, ?_, ?_⟩
  · intro X0
    obtain ⟨k, hk1, hk2, hk3⟩ := shiftBelow_spec P hP (X0 + 1) X0 (Nat.lt_succ_self _)
    refine ⟨k, hk1, hk2, hk3, ?_⟩
    intro fuel hf
    rw [shiftBelow_fuel P hP X0 fuel hf, hk1]
  · intro X pos1 hs
    obtain ⟨h1, h2, h3, h4, h5⟩ := sampleX_ok rng P pSize 11 pos X pos1 hs
    exact ⟨((cryptDhmCheckRange_iff _ _).1 h1).1, ((cryptDhmCheckRange_iff _ _).1 h1).2,
      h2, h3, h4, h5⟩
  · intro left X0 hd hr
    exact sampleX_again rng P pSize left pos X0 hd hr
  · exact sampleX_draws rng P pSize 11 pos

theorem keymake_sampling_witness :
    0 < 23 ∧
    (∃ k, shiftBelow (200 + 1) 200 23 = 200 >>> k ∧ 200 >>> k < 23 ∧
      (∀ j, j < k → 23 ≤ 200 >>> j) ∧
      ∀ fuel, 200 < fuel → shiftBelow fuel 200 23 = 200 >>> k) ∧
    (sampleX (fun i => if i < 4 then some 183 else some 100) 23 1 11 0 = (.ok 12, 5) ∧
      2 ≤ 12 ∧ 12 + 2 ≤ 23) ∧
    (0 < (sampleX (fun _ => some 1) 23 1 11 0).2 ∧ (sampleX (fun _ => some 1) 23 1 11 0).2 ≤ 0 + 12) :=
  ⟨by decide,
   (keymake_sampling (fun _ => some 1) 23 1 0 (by decide)).1 200,
   ⟨rfl,
    ((keymake_sampling (fun i => if i < 4 then some 183 else some 100) 23 1 0 (by decide)).2.1
      12 5 rfl).1,
    ((keymake_sampling (fun i => if i < 4 then some 183 else some 100) 23 1 0 (by decide)).2.1
      12 5 rfl).2.1⟩,
   (keymake_sampling (fun _ => some 1) 23 1 0 (by decide)).2.2.2⟩

/-! ## Shared secret: state at the exits -/

theorem dhm_calc_secret_ctx {ctx ctx2 : dhm_context} {olen n : Nat} {raw : List Nat}
    (hc : dhm_calc_secret ctx olen = some (ctx2, raw, n)) :
    ctx2 = { ctx with K := ctx.GY ^ ctx.X % ctx.P } := by
  unfold dhm_calc_secret at hc
  split_ifs at hc with h1 h2
  split at hc
  · simp at hc
  · rename_i K hK
    obtain ⟨rfl, _⟩ := mpi_exp_mod_eq hK
    simp only [Option.some.injEq, Prod.mk.injEq] at hc
    exact hc.1.symm

theorem secretFinish_ret (h : CryptHdr) (secret : Option CRYPTSHA1_T) (key : CRYPTDHM_T)
    (d : dhm_context) (buff : List Nat) (sha : ShaState) :
    secretFinish h secret (some key) (some d) buff sha =
      (.ret secret,
       { myDhm := some { key with backendKey := some { d with GY := 0, K := 0 } },
         buff := List.replicate h.CRYPT_DHM_MAX_LEN 0, sha := sha }) := rfl

theorem cryptDhmSecretForNeigh_ret (h : CryptHdr) (b : Polarssl) (sha : ShaState)
    (dhm : dhm_context) (rawGXType rawGXLen : Nat) (neighRawKey : List Nat)
    (neighRawKeyLen : Nat) (buff : List Nat) (secret : Option CRYPTSHA1_T) (st : SecretState)
    (hr : cryptDhmSecretForNeigh h b sha
      (some { backendKey := some dhm, rawGXType := rawGXType, rawGXLen := rawGXLen })
      neighRawKey neighRawKeyLen buff = (.ret secret, st)) :
    st.buff = List.replicate h.CRYPT_DHM_MAX_LEN 0 ∧
    st.myDhm = some { backendKey := some { dhm with GY := 0, K := 0 },
                      rawGXType := rawGXType, rawGXLen := rawGXLen } := by
  unfold cryptDhmSecretForNeigh at hr
  simp only [secretFinish_ret] at hr
  split at hr
  · simp only [Prod.mk.injEq] at hr
    obtain ⟨-, rfl⟩ := hr
    exact ⟨rfl, rfl⟩
  split at hr
  · simp only [Prod.mk.injEq] at hr
    obtain ⟨-, rfl⟩ := hr
    exact ⟨rfl, rfl⟩
  split at hr
  · simp only [Prod.mk.injEq] at hr
    obtain ⟨-, rfl⟩ := hr
    exact ⟨rfl, rfl⟩
  split at hr
  · simp only [Prod.mk.injEq] at hr
    obtain ⟨-, rfl⟩ := hr
    exact ⟨rfl, rfl⟩
  rename_i dhm2 raw n hcalc
  have hctx := dhm_calc_secret_ctx hcalc
  subst hctx
  split at hr
  · simp only [Prod.mk.injEq] at hr
    obtain ⟨-, rfl⟩ := hr
    exact ⟨rfl, rfl⟩
  split at hr
  · simp only [Prod.mk.injEq] at hr
    obtain ⟨-, rfl⟩ := hr
    exact ⟨rfl, rfl⟩
  · simp at hr
  · simp at hr


theorem dhmLens_ge {len : Nat} (hl : (len : Int) ∈ dhmLens) : 128 ≤ len := by
  simp only [dhmLens, CRYPT_DHM1024_LEN, CRYPT_DHM2048_LEN, CRYPT_DHM3072_LEN,
    List.mem_cons, List.mem_singleton, List.not_mem_nil, or_false] at hl
  norm_num at hl
  omega

theorem cryptDhmSecretForNeigh_returns (h : CryptHdr) (b : Polarssl) (sha : ShaState)
    (dhm : dhm_context) (rawGXType rawGXLen : Nat) (neighRawKey : List Nat)
    (neighRawKeyLen : Nat) (buff : List Nat) (hc : sha.shaClean = true) :
    ∃ secret st, cryptDhmSecretForNeigh h b sha
      (some { backendKey := some dhm, rawGXType := rawGXType, rawGXLen := rawGXLen })
      neighRawKey neighRawKeyLen buff = (.ret secret, st) := by
  unfold cryptDhmSecretForNeigh
  simp only [secretFinish_ret]
  split
  · exact ⟨_, _, rfl⟩
  rename_i hty
  split
  · exact ⟨_, _, rfl⟩
  rename_i hsz
  split
  · exact ⟨_, _, rfl⟩
  split
  · exact ⟨_, _, rfl⟩
  rename_i dhm2 raw n hcalc
  split
  · exact ⟨_, _, rfl⟩
  rename_i hwin
  simp only [not_or, not_not, not_lt, gt_iff_lt] at hsz hwin
  obtain ⟨hn, hraw⟩ := dhm_calc_secret_some hcalc
  have hmem : (neighRawKeyLen : Int) ∈ dhmLens :=
    typeByLen_ne_zero_mem (by rw [hsz.1]; exact hty)
  have hge := dhmLens_ge hmem
  have hlen : 0 < ((raw ++ List.drop n buff).take n).length := by
    rw [List.take_append_of_le_length (by rw [hraw, beBytes_length, hn]),
      List.take_of_length_le (by rw [hraw, beBytes_length, hn]), hraw, beBytes_length, ← hn]
    omega
  rw [cryptShaAtomic_clean b sha _ hc hlen]
  exact ⟨_, _, rfl⟩

/-! ## RSA identity: raw round trip, loading the private key -/

theorem mpi_read_append (l : List Nat) (x : Nat) :
    mpi_read_binary (l ++ [x]) = mpi_read_binary l * 256 + x % 256 := by
  simp [mpi_read_binary, List.foldl_append]

theorem beBytes_mpi_read (l : List Nat) (hb : ∀ x ∈ l, x < 256) :
    beBytes l.length (mpi_read_binary l) = l := by
  induction l using List.reverseRecOn with
  | nil => rfl
  | append_singleton init x ih =>
    have hx : x < 256 := hb x (by simp)
    have hinit : ∀ y ∈ init, y < 256 := fun y hy => hb y (by simp [hy])
    rw [mpi_read_append, List.length_append, List.length_singleton, beBytes]
    have h1 : (mpi_read_binary init * 256 + x % 256) / 256 = mpi_read_binary init := by omega
    have h2 : (mpi_read_binary init * 256 + x % 256) % 256 = x := by omega
    rw [h1, h2, ih hinit]

theorem mpi_read_lt (l : List Nat) : mpi_read_binary l < 256 ^ l.length := by
  induction l using List.reverseRecOn with
  | nil => simp [mpi_read_binary]
  | append_singleton init x ih =>
    rw [mpi_read_append, List.length_append, List.length_singleton, pow_succ]
    have := Nat.mod_lt x (show 256 > 0 by norm_num)
    nlinarith

theorem mpi_read_cons (x : Nat) (l : List Nat) :
    mpi_read_binary (x :: l) = x % 256 * 256 ^ l.length + mpi_read_binary l := by
  induction l using List.reverseRecOn with
  | nil => simp [mpi_read_binary]
  | append_singleton init y ih =>
    rw [← List.cons_append, mpi_read_append, mpi_read_append, ih, List.length_append,
      List.length_singleton, pow_succ]
    ring

theorem mpiSizeAux_lower : ∀ (fuel n : Nat), n ≤ fuel → n ≠ 0 →
    256 ^ (mpiSizeAux fuel n - 1) ≤ n := by
  intro fuel
  induction fuel with
  | zero => intro n hn h0; omega
  | succ f ih =>
    intro n hn h0
    unfold mpiSizeAux
    rw [if_neg h0]
    by_cases hq : n / 256 = 0
    · have : mpiSizeAux f (n / 256) = 0 := by
        rw [hq]; cases f <;> simp [mpiSizeAux]
      rw [this]
      simp
      omega
    · have hle := ih (n / 256) (by omega) hq
      have hpos : 0 < mpiSizeAux f (n / 256) := by
        cases f with
        | zero => omega
        | succ g => unfold mpiSizeAux; rw [if_neg hq]; omega
      have heq : 1 + mpiSizeAux f (n / 256) - 1 = (mpiSizeAux f (n / 256) - 1) + 1 := by omega
      rw [heq, pow_succ]
      have := Nat.div_mul_le_self n 256
      nlinarith

theorem mpi_size_eq_of_bounds {n k : Nat} (hlo : 256 ^ k ≤ n) (hhi : n < 256 ^ (k + 1)) :
    mpi_size n = k + 1 := by
  have hn0 : n ≠ 0 := by
    have : 0 < 256 ^ k := Nat.pow_pos (by norm_num)
    omega
  have hup := mpi_size_bound n
  have hlow : 256 ^ (mpi_size n - 1) ≤ n := mpiSizeAux_lower n n (Nat.le_refl n) hn0
  have h1 : k < mpi_size n := by
    by_contra hc
    have : 256 ^ mpi_size n ≤ 256 ^ k := Nat.pow_le_pow_right (by norm_num) (by omega)
    omega
  have h2 : mpi_size n - 1 < k + 1 := by
    by_contra hc
    have : 256 ^ (k + 1) ≤ 256 ^ (mpi_size n - 1) := Nat.pow_le_pow_right (by norm_num) (by omega)
    omega
  omega

theorem mpi_size_read_of_lead (rawKey : List Nat) (hb : ∀ x ∈ rawKey, x < 256)
    (hne : rawKey ≠ []) (hlead : rawKey.head? ≠ some 0) :
    mpi_size (mpi_read_binary rawKey) = rawKey.length := by
  cases rawKey with
  | nil => exact absurd rfl hne
  | cons x rest =>
    have hx : x < 256 := hb x (by simp)
    have hx0 : x ≠ 0 := by
      intro h0; apply hlead; simp [h0]
    rw [List.length_cons]
    apply mpi_size_eq_of_bounds
    · rw [mpi_read_cons, Nat.mod_eq_of_lt hx]
      have : 1 * 256 ^ rest.length ≤ x * 256 ^ rest.length :=
        Nat.mul_le_mul_right _ (by omega)
      omega
    · rw [← List.length_cons x rest]
      exact mpi_read_lt _

theorem rsaTypeByLen_ne_zero_mem {h : CryptHdr} {len : Int}
    (hne : cryptRsaKeyTypeByLen h len ≠ 0) : len ∈ rsaLens := by
  by_contra hl
  simp only [rsaLens, List.mem_cons, List.mem_singleton, List.not_mem_nil, or_false,
    not_or] at hl
  exact hne (by simp [cryptRsaKeyTypeByLen, hl, u8])

theorem rsaLens_bounds {len : Nat} (hl : (len : Int) ∈ rsaLens) : 64 ≤ len ∧ len ≤ 512 := by
  simp only [rsaLens, CRYPT_RSA512_LEN, CRYPT_RSA768_LEN, CRYPT_RSA896_LEN, CRYPT_RSA1024_LEN,
    CRYPT_RSA1536_LEN, CRYPT_RSA2048_LEN, CRYPT_RSA3072_LEN, CRYPT_RSA4096_LEN,
    List.mem_cons, List.mem_singleton, List.not_mem_nil, or_false] at hl
  norm_num at hl
  omega

theorem cryptRsaPubKeyGetRaw_some {key : CRYPTRSA_T} {buffLen : Nat} {bytes : List Nat}
    (hg : cryptRsaPubKeyGetRaw (some key) buffLen = some bytes) :
    ∃ rsa, key.backendKey = some rsa ∧ buffLen ≠ 0 ∧ key.rawKeyType ≠ 0 ∧
      buffLen = key.rawKeyLen ∧ buffLen = mpi_size rsa.N ∧ buffLen = rsa.len ∧
      bytes = beBytes buffLen rsa.N := by
  unfold cryptRsaPubKeyGetRaw at hg
  simp only at hg
  split_ifs at hg with h1
  split at hg
  · simp at hg
  · rename_i rsa hb
    split_ifs at hg with h2
    simp only [not_or, not_not] at h1 h2
    unfold mpi_write_binary at hg
    split_ifs at hg with h3
    exact ⟨rsa, hb, h1.1, h1.2.1, h1.2.2, h2.1, h2.2, (Option.some.inj hg).symm⟩

theorem cryptRsaPubKeyGetRaw_good {rsa : rsa_context} {type len : Nat} (hl : len ≠ 0)
    (ht : type ≠ 0) (hs : mpi_size rsa.N = len) (hrl : rsa.len = len) :
    cryptRsaPubKeyGetRaw (some { backendKey := some rsa, rawKeyType := type, rawKeyLen := len })
      len = some (beBytes len rsa.N) := by
  simp [cryptRsaPubKeyGetRaw, hl, ht, hs, hrl, mpi_write_binary]

theorem mpi_read_exponent (e : Nat) :
    mpi_read_binary (beBytes 4 (e % 2 ^ 32)) = e % 2 ^ 32 := by
  rw [mpi_read_beBytes]
  apply Nat.mod_eq_of_lt
  have h : e % 2 ^ 32 < 2 ^ 32 := Nat.mod_lt _ (by norm_num)
  norm_num at h ⊢
  exact h

theorem cryptRsaPubKeyFromRaw_ret {h : CryptHdr} {c : RsaHdr} {rawKey : List Nat}
    {rawKeyLen : Nat} {r : Option CRYPTRSA_T}
    (hr : cryptRsaPubKeyFromRaw h c rawKey rawKeyLen = .ret r) :
    cryptRsaKeyTypeByLen h rawKeyLen ≠ 0 ∧
    r = some { backendKey := some { len := rawKeyLen,
                                    N := mpi_read_binary (rawKey.take rawKeyLen),
                                    E := c.CRYPT_KEY_E_VAL % 2 ^ 32, D := 0, P := 0, Q := 0 },
               rawKeyType := cryptRsaKeyTypeByLen h rawKeyLen, rawKeyLen := rawKeyLen } := by
  have hE := mpi_read_exponent c.CRYPT_KEY_E_VAL
  unfold cryptRsaPubKeyFromRaw assertion at hr
  rw [hE] at hr
  split_ifs at hr with h1 h2
  · simp only at hr
    split at hr
    · simp at hr
    · split_ifs at hr with h3
      exact ⟨by simpa using h1, (Outcome.ret.inj hr).symm⟩
  · exact ⟨by simpa using h1, (Outcome.ret.inj hr).symm⟩

/-- C11, as stated, fails for a raw key whose first byte is zero: for the 64
bytes `0, 1, 1, ..` the handle is built (without `EXTREME_PARANOIA`) with the
stated length, type and modulus, but `cryptRsaPubKeyGetRaw` on it returns
`FAILURE`, the modulus being shorter than 64 bytes; with `EXTREME_PARANOIA` the
construction itself aborts on assertion -502721. -/
theorem rsa_raw_round_trip_counterexample :
    zeroLedRawKey.length = 64 ∧ ((64 : Nat) : Int) ∈ rsaLens ∧
    cryptRsaKeyTypeByLen sampleHdr 64 = 1 ∧
    cryptRsaPubKeyFromRaw sampleHdr plainRsaHdr zeroLedRawKey 64 =
      .ret (some { backendKey := some { len := 64, N := mpi_read_binary zeroLedRawKey,
                                        E := 65537, D := 0, P := 0, Q := 0 },
                   rawKeyType := 1, rawKeyLen := 64 }) ∧
    cryptRsaPubKeyGetRaw
      (some { backendKey := some { len := 64, N := mpi_read_binary zeroLedRawKey,
                                   E := 65537, D := 0, P := 0, Q := 0 },
              rawKeyType := 1, rawKeyLen := 64 }) 64 = none ∧
    cryptRsaPubKeyFromRaw sampleHdr sampleRsaHdr zeroLedRawKey 64 = .fatal (-502721) := by
  refine ⟨by decide, by decide, by decide, by decide!, by decide!, by decide!⟩

/-- C11, amended: for every raw byte string `rawKey` whose length `len` is a
registered RSA key length (one that `cryptRsaKeyTypeByLen` maps to a type) and
whose first byte is not zero, `cryptRsaPubKeyFromRaw(rawKey, len)` yields a
handle with `rawKeyLen = len`, `rawKeyType = cryptRsaKeyTypeByLen(len)`, modulus
the big-endian value of `rawKey` and exponent `CRYPT_KEY_E_VAL`, and
`cryptRsaPubKeyGetRaw` on that handle with a buffer of length `len` returns
`SUCCESS` and writes back exactly `rawKey`. -/
theorem rsa_raw_round_trip (h : CryptHdr) (c : RsaHdr) (rawKey : List Nat) (len : Nat)
    (hreg : cryptRsaKeyTypeByLen h len ≠ 0) (hlen : rawKey.length = len)
    (hbytes : ∀ x ∈ rawKey, x < 256) (hlead : rawKey.head? ≠ some 0) :
    ∃ key rsa, cryptRsaPubKeyFromRaw h c rawKey len = .ret (some key) ∧
      key.backendKey = some rsa ∧ key.rawKeyLen = len ∧
      key.rawKeyType = cryptRsaKeyTypeByLen h len ∧
      rsa.N = mpi_read_binary rawKey ∧ rsa.len = len ∧ rsa.E = c.CRYPT_KEY_E_VAL % 2 ^ 32 ∧
      cryptRsaPubKeyGetRaw (some key) len = some rawKey := by
  have hb := rsaLens_bounds (rsaTypeByLen_ne_zero_mem hreg)
  have hne : rawKey ≠ [] := by
    intro h0; rw [h0] at hlen; simp at hlen; omega
  have htake : rawKey.take len = rawKey := List.take_of_length_le (by omega)
  have hsize : mpi_size (mpi_read_binary rawKey) = len := by
    rw [mpi_size_read_of_lead rawKey hbytes hne hlead, hlen]
  have hback : beBytes len (mpi_read_binary rawKey) = rawKey := by
    rw [← hlen]; exact beBytes_mpi_read rawKey hbytes
  have hE := mpi_read_exponent c.CRYPT_KEY_E_VAL
  have hget : cryptRsaPubKeyGetRaw
      (some { backendKey := some { len := len, N := mpi_read_binary rawKey,
                                   E := c.CRYPT_KEY_E_VAL % 2 ^ 32, D := 0, P := 0, Q := 0 },
              rawKeyType := cryptRsaKeyTypeByLen h len, rawKeyLen := len }) len =
      some rawKey := by
    have hl0 : len ≠ 0 := by omega
    rw [cryptRsaPubKeyGetRaw_good hl0 hreg hsize rfl, hback]
  refine ⟨_, _, ?_, rfl, rfl, rfl, rfl, rfl, rfl, hget⟩
  unfold cryptRsaPubKeyFromRaw assertion
  simp only [htake, hE, hget]
  cases c.EXTREME_PARANOIA <;> simp [hreg]

theorem rsa_raw_round_trip_witness :
    (cryptRsaKeyTypeByLen sampleHdr (64 : Nat) ≠ 0 ∧ sampleRawKey.length = 64 ∧
      (∀ x ∈ sampleRawKey, x < 256) ∧ sampleRawKey.head? ≠ some 0) ∧
    ∃ key rsa, cryptRsaPubKeyFromRaw sampleHdr sampleRsaHdr sampleRawKey 64 = .ret (some key) ∧
      key.backendKey = some rsa ∧ key.rawKeyLen = 64 ∧
      key.rawKeyType = cryptRsaKeyTypeByLen sampleHdr (64 : Nat) ∧
      rsa.N = mpi_read_binary sampleRawKey ∧ rsa.len = 64 ∧
      rsa.E = sampleRsaHdr.CRYPT_KEY_E_VAL % 2 ^ 32 ∧
      cryptRsaPubKeyGetRaw (some key) 64 = some sampleRawKey :=
  ⟨⟨by decide, by decide, by decide, by decide⟩,
   rsa_raw_round_trip sampleHdr sampleRsaHdr sampleRawKey 64 (by decide) (by decide)
     (by decide) (by decide)⟩

theorem u8_idem (y : Int) : u8 (u8 y : Int) = u8 y := by
  unfold u8
  have h1 : 0 ≤ y % 256 := Int.emod_nonneg y (by norm_num)
  have h2 : y % 256 < 256 := Int.emod_lt_of_pos y (by norm_num)
  rw [Int.toNat_of_nonneg h1, Int.emod_eq_of_lt h1 h2]

theorem rsaTypeByLen_u8 (h : CryptHdr) (len : Int) :
    u8 (cryptRsaKeyTypeByLen h len : Int) = cryptRsaKeyTypeByLen h len := by
  unfold cryptRsaKeyTypeByLen
  exact u8_idem _

theorem cryptRsaKeyFromDer_cases (h : CryptHdr) (c : RsaHdr) (dec : KeyDecoder)
    (keyPath : String) (keyBuff : List Nat) :
    ((cryptRsaKeyFromDer h c dec none keyPath keyBuff).2 = none ∧
      ∀ pub, (cryptRsaKeyFromDer h c dec none keyPath keyBuff).1 ≠ .ret (some pub)) ∨
    ∃ rsa, dec.parse_keyfile keyPath = some rsa ∧ dec.rsa_check_privkey rsa = true ∧
      cryptRsaKeyTypeByLen h (mpi_size rsa.N) ≠ 0 ∧ rsa.len = mpi_size rsa.N ∧
      cryptRsaKeyFromDer h c dec none keyPath keyBuff =
        (.ret (some { backendKey := some { len := mpi_size rsa.N, N := rsa.N,
                                           E := c.CRYPT_KEY_E_VAL % 2 ^ 32,
                                           D := 0, P := 0, Q := 0 },
                      rawKeyType := cryptRsaKeyTypeByLen h (mpi_size rsa.N),
                      rawKeyLen := mpi_size rsa.N }),
         some { backendKey := some rsa,
                rawKeyType := cryptRsaKeyTypeByLen h (mpi_size rsa.N),
                rawKeyLen := mpi_size rsa.N }) := by
  unfold cryptRsaKeyFromDer assertionSt
  simp only [Option.isNone_none, if_true]
  cases hp : dec.parse_keyfile keyPath with
  | none => left; simp
  | some rsa =>
    simp only
    by_cases hck : dec.rsa_check_privkey rsa = true
    swap
    · left; simp [hck]
    rw [if_neg (not_not.2 hck)]
    by_cases h1 : mpi_size rsa.N ≤ 0
    · left; simp [h1]
    rw [if_neg h1]
    by_cases h2 : cryptRsaKeyTypeByLen h (mpi_size rsa.N) = 0
    · left; simp [h2]
    rw [if_neg h2]
    rw [rsaTypeByLen_u8, if_neg h2]
    by_cases h3 : u16 (mpi_size rsa.N) = 0
    · left; simp [h3]
    rw [if_neg h3]
    cases hg : cryptRsaPubKeyGetRaw
        (some { backendKey := some rsa, rawKeyType := cryptRsaKeyTypeByLen h (mpi_size rsa.N),
                rawKeyLen := u16 (mpi_size rsa.N) }) (u16 (mpi_size rsa.N)) with
    | none => left; simp
    | some bytes =>
      simp only
      obtain ⟨rsa2, hb, -, -, -, hsz, hrl, hbytes⟩ := cryptRsaPubKeyGetRaw_some hg
      simp only [Option.some.injEq] at hb
      subst hb
      by_cases h4 : c.CRYPT_RSA_MAX_LEN < bytes.length
      · left; simp [h4]
      rw [if_neg h4]
      cases hf : cryptRsaPubKeyFromRaw h c (bytes ++ List.drop bytes.length keyBuff)
          (u16 (mpi_size rsa.N)) with
      | fatal code => left; simp
      | segv => left; simp
      | ret r =>
        obtain ⟨-, hr⟩ := cryptRsaPubKeyFromRaw_ret hf
        subst hr
        simp only
        right
        have hlen : bytes.length = mpi_size rsa.N := by
          rw [hbytes, beBytes_length, hsz]
        have htake : (bytes ++ List.drop bytes.length keyBuff).take (u16 (mpi_size rsa.N)) =
            bytes := by
          apply List.take_left'
          rw [hlen, hsz]
        have hN : mpi_read_binary bytes = rsa.N := by
          rw [hbytes, hsz, mpi_read_beBytes]
          exact Nat.mod_eq_of_lt (mpi_size_bound _)
        refine ⟨rsa, rfl, hck, h2, by omega, ?_⟩
        rw [htake, hN, hsz]

/-- C12: `cryptRsaKeyFromDer`, called with the global private key unset,
returns a public handle if and only if it sets the global private key; whenever
it returns `NULL` (and on every other outcome without a handle) the global is
still unset: so for a failing decoder, a failing private-key check and a
modulus length that is not a registered RSA length; on success the stored
private key is the decoded one and the returned public handle has its type,
raw length and modulus. -/
theorem rsa_from_der_atomic (h : CryptHdr) (c : RsaHdr) (dec : KeyDecoder)
    (keyPath : String) (keyBuff : List Nat) :
    ((∃ pub, (cryptRsaKeyFromDer h c dec none keyPath keyBuff).1 = .ret (some pub)) ↔
      (cryptRsaKeyFromDer h c dec none keyPath keyBuff).2 ≠ none) ∧
    ((cryptRsaKeyFromDer h c dec none keyPath keyBuff).1 = .ret none →
      (cryptRsaKeyFromDer h c dec none keyPath keyBuff).2 = none) ∧
    (dec.parse_keyfile keyPath = none →
      cryptRsaKeyFromDer h c dec none keyPath keyBuff = (.ret none, none)) ∧
    (∀ rsa, dec.parse_keyfile keyPath = some rsa →
      dec.rsa_check_privkey rsa = false ∨ cryptRsaKeyTypeByLen h (mpi_size rsa.N) = 0 →
      cryptRsaKeyFromDer h c dec none keyPath keyBuff = (.ret none, none)) ∧
    (∀ pub priv, (cryptRsaKeyFromDer h c dec none keyPath keyBuff).1 = .ret (some pub) →
      (cryptRsaKeyFromDer h c dec none keyPath keyBuff).2 = some priv →
      priv.backendKey = dec.parse_keyfile keyPath ∧
      pub.rawKeyType = priv.rawKeyType ∧ pub.rawKeyLen = priv.rawKeyLen ∧
      ∃ rp rq, pub.backendKey = some rp ∧ priv.backendKey = some rq ∧ rp.N = rq.N) := by
  refine ⟨?_, ?_, ?_, ?_, ?_⟩
  · rcases cryptRsaKeyFromDer_cases h c dec keyPath keyBuff with ⟨h1, h2⟩ | ⟨rsa, -, -, -, -, he⟩
    · constructor
      · rintro ⟨pub, hp⟩; exact absurd hp (h2 pub)
      · intro hn; exact absurd h1 hn
    · rw [he]
      exact ⟨fun _ => by simp, fun _ => ⟨_, rfl⟩⟩
  · rcases cryptRsaKeyFromDer_cases h c dec keyPath keyBuff with ⟨h1, -⟩ | ⟨rsa, -, -, -, -, he⟩
    · intro _; exact h1
    · rw [he]; intro hc; simp at hc
  · intro hp
    simp [cryptRsaKeyFromDer, assertionSt, hp]
  · intro rsa hp hbad
    unfold cryptRsaKeyFromDer assertionSt
    simp only [Option.isNone_none, if_true, hp]
    rcases hbad with hb | hb
    · simp [hb]
    · by_cases hck : dec.rsa_check_privkey rsa = true
      · by_cases h1 : mpi_size rsa.N ≤ 0
        · simp [hck, h1]
        · simp [hck, h1, hb]
      · simp [hck]
  · intro pub priv hpub hpriv
    rcases cryptRsaKeyFromDer_cases h c dec keyPath keyBuff with ⟨h1, -⟩ | ⟨rsa, hp, -, -, -, he⟩
    · rw [h1] at hpriv; simp at hpriv
    · rw [he] at hpub hpriv
      simp only [Outcome.ret.injEq, Option.some.injEq] at hpub hpriv
      subst hpub hpriv
      exact ⟨hp.symm, rfl, rfl, _, _, rfl, rfl, rfl⟩

theorem rsa_from_der_atomic_witness :
    (∃ pub, (cryptRsaKeyFromDer sampleHdr sampleRsaHdr sampleDecoder none "rsa.der" []).1 =
      .ret (some pub)) ∧
    (cryptRsaKeyFromDer sampleHdr sampleRsaHdr sampleDecoder none "rsa.der" []).2 ≠ none ∧
    (sampleDecoder.parse_keyfile "none.der" = none ∧
      cryptRsaKeyFromDer sampleHdr sampleRsaHdr sampleDecoder none "none.der" [] =
        (.ret none, none)) :=
  ⟨(rsa_from_der_atomic sampleHdr sampleRsaHdr sampleDecoder "rsa.der" []).1.2 (by decide!),
   by decide!,
   ⟨by decide,
    (rsa_from_der_atomic sampleHdr sampleRsaHdr sampleDecoder "none.der" []).2.2.1 (by decide)⟩⟩

/-! ## SHA-1 context: the split points at the ends -/

theorem shaSplit_at_ends (b : Polarssl) (st : ShaState) (data : List Nat)
    (hc : st.shaClean = true) (hne : data ≠ []) :
    shaSplit b st data 0 = (.fatal (-502034), st) ∧
    shaSplit b st data data.length =
      (.fatal (-502036), { shaClean := false, sha_ctx := data }) := by
  have hl : 0 < data.length := List.length_pos.2 hne
  constructor
  · simp [shaSplit, cryptShaNew, assertionSt, hc]
  · simp [shaSplit, cryptShaNew, cryptShaUpdate, assertionSt, hc, hl, sha1_update, sha1_starts]

/-! ## Shared secret: agreement of the two sides -/

theorem mpi_size_mono {a b : Nat} (hab : a ≤ b) : mpi_size a ≤ mpi_size b := by
  by_cases ha : a = 0
  · subst ha
    have : mpi_size 0 = 0 := rfl
    omega
  · have hlow : 256 ^ (mpi_size a - 1) ≤ a := mpiSizeAux_lower a a (Nat.le_refl a) ha
    have hup := mpi_size_bound b
    by_contra hc
    have : 256 ^ mpi_size b ≤ 256 ^ (mpi_size a - 1) :=
      Nat.pow_le_pow_right (by norm_num) (by omega)
    omega

theorem dhmKeyLen_values (h : CryptHdr) (t : Int) (hL : cryptDhmKeyLenByType h t ≠ 0) :
    cryptDhmKeyLenByType h t = 128 ∨ cryptDhmKeyLenByType h t = 256 ∨
      cryptDhmKeyLenByType h t = 384 := by
  rcases dhmLen_cases h t with ⟨_, hl⟩ | ⟨_, _, hl⟩ | ⟨_, _, _, hl⟩ | ⟨_, hl⟩
  · exact Or.inl hl
  · exact Or.inr (Or.inl hl)
  · exact Or.inr (Or.inr hl)
  · exact absurd hl hL

theorem sharedSecretOf_short (h : CryptHdr) (b : Polarssl) (sha : ShaState) {len K : Nat}
    (hs : mpi_size K < (len / 4) * 3) : sharedSecretOf h b sha len K = .ret none := by
  unfold sharedSecretOf
  split_ifs with h1 h2
  · rfl
  · rfl
  · exact absurd (Or.inr hs) h2

theorem sharedSecretOf_window (h : CryptHdr) (b : Polarssl) (sha : ShaState) {len K : Nat}
    (hmax : len ≤ h.CRYPT_DHM_MAX_LEN) (hle : mpi_size K ≤ len)
    (hge : (len / 4) * 3 ≤ mpi_size K) (hpos : 0 < mpi_size K) :
    (sha.shaClean = true →
      sharedSecretOf h b sha len K = .ret (some (b.sha1 (beBytes (mpi_size K) K)))) ∧
    (sha.shaClean = false → sharedSecretOf h b sha len K = .fatal (-502030)) := by
  have h1 : ¬ h.CRYPT_DHM_MAX_LEN < len := by omega
  have h2 : ¬ (mpi_size K > len ∨ mpi_size K < (len / 4) * 3) := by omega
  constructor
  · intro hc
    unfold sharedSecretOf
    rw [if_neg h1, if_neg h2, cryptShaAtomic_clean b sha _ hc (by rw [beBytes_length]; exact hpos)]
  · intro hc
    unfold sharedSecretOf
    rw [if_neg h1, if_neg h2, cryptShaAtomic_dirty b sha _ hc]

set_option maxRecDepth 1000000 in
/-- C1, as stated, fails: in the 2048-bit group of RFC 3526 the pairs `keyC`
and `keyD`, both returned by `cryptDhmKeyMake`, have private exponents that are
inverse to each other modulo the order of the generator 2, so the raw shared
value is 2, one byte instead of at least 192, and with a clean digest context
both calls return `NULL` ("Unexpected secret length"); and for the pairs `keyA`
and `keyB` with a dirty digest context both calls abort on assertion -502030.
In neither case is a SharedSecret returned. -/
theorem dh_secret_agreement_counterexample :
    (cryptDhmKeyMake sampleHdr rfc3526Polarssl rngC 17 0 0 = (.ret (some keyC), 1) ∧
      cryptDhmKeyMake sampleHdr rfc3526Polarssl rngD 17 0 0 = (.ret (some keyD), 1) ∧
      cryptDhmPubKeyGetRaw (some keyC) keyC.rawGXLen = .ret rawC ∧
      cryptDhmPubKeyGetRaw (some keyD) keyD.rawGXLen = .ret rawD ∧
      cleanSha.shaClean = true ∧
      (cryptDhmSecretForNeigh sampleHdr rfc3526Polarssl cleanSha (some keyC) rawD
        keyD.rawGXLen []).1 = .ret none ∧
      (cryptDhmSecretForNeigh sampleHdr rfc3526Polarssl cleanSha (some keyD) rawC
        keyC.rawGXLen []).1 = .ret none) ∧
    (cryptDhmKeyMake sampleHdr samplePolarssl rngA 16 0 0 = (.ret (some keyA), 1) ∧
      cryptDhmKeyMake sampleHdr samplePolarssl rngB 16 0 0 = (.ret (some keyB), 2) ∧
      cryptDhmPubKeyGetRaw (some keyA) keyA.rawGXLen = .ret rawA ∧
      cryptDhmPubKeyGetRaw (some keyB) keyB.rawGXLen = .ret rawB ∧
      (cryptDhmSecretForNeigh sampleHdr samplePolarssl dirtySha (some keyA) rawB
        keyB.rawGXLen []).1 = .fatal (-502030) ∧
      (cryptDhmSecretForNeigh sampleHdr samplePolarssl dirtySha (some keyB) rawA
        keyA.rawGXLen []).1 = .fatal (-502030)) :=
  ⟨⟨by decide!, by decide!, by decide!, by decide!, rfl, by decide!, by decide!⟩,
   ⟨by decide!, by decide!, by decide!, by decide!, by decide!, by decide!⟩⟩

/-- C1, amended: for every registered DH type and every two key pairs `A` and
`B` that `cryptDhmKeyMake` returned for that type, `cryptDhmSecretForNeigh` of
`A` on the raw public value of `B` and of `B` on the raw public value of `A`
have the same outcome, and the raw shared values `GX_B^X_A mod P` and
`GX_A^X_B mod P` are one value `K` of at most `len` bytes.  With a clean digest
context, `len` within the local buffer and `K` of at least `(len / 4) * 3`
bytes, both calls return the same secret, the 20-byte SHA-1 of the big-endian
bytes of `K`; with a shorter `K` both return `NULL`; with a dirty context both
abort on assertion -502030.  A returned secret is always that SHA-1. -/
theorem dh_secret_agreement (h : CryptHdr) (b : Polarssl) (sha : ShaState)
    (rng1 rng2 : Nat → Option Nat) (keyType att1 att2 pos1 pos2 end1 end2 : Nat)
    (A B : CRYPTDHM_T) (rawOfA rawOfB buffA buffB : List Nat)
    (h256 : keyType < 256)
    (hA : cryptDhmKeyMake h b rng1 keyType att1 pos1 = (.ret (some A), end1))
    (hB : cryptDhmKeyMake h b rng2 keyType att2 pos2 = (.ret (some B), end2))
    (hrA : cryptDhmPubKeyGetRaw (some A) A.rawGXLen = .ret rawOfA)
    (hrB : cryptDhmPubKeyGetRaw (some B) B.rawGXLen = .ret rawOfB) :
    (cryptDhmSecretForNeigh h b sha (some A) rawOfB B.rawGXLen buffA).1 =
      (cryptDhmSecretForNeigh h b sha (some B) rawOfA A.rawGXLen buffB).1 ∧
    ∃ dA dB, A.backendKey = some dA ∧ B.backendKey = some dB ∧ dA.P = dB.P ∧
      A.rawGXLen = B.rawGXLen ∧
      dB.GX ^ dA.X % dA.P = dA.GX ^ dB.X % dB.P ∧
      mpi_size (dB.GX ^ dA.X % dA.P) ≤ A.rawGXLen ∧
      (∀ s, (cryptDhmSecretForNeigh h b sha (some A) rawOfB B.rawGXLen buffA).1 = .ret (some s) →
        s = b.sha1 (beBytes (mpi_size (dB.GX ^ dA.X % dA.P)) (dB.GX ^ dA.X % dA.P)) ∧
        s.bytes.length = 20) ∧
      (sha.shaClean = true → A.rawGXLen ≤ h.CRYPT_DHM_MAX_LEN →
        (A.rawGXLen / 4) * 3 ≤ mpi_size (dB.GX ^ dA.X % dA.P) →
        (cryptDhmSecretForNeigh h b sha (some A) rawOfB B.rawGXLen buffA).1 =
          .ret (some (b.sha1
            (beBytes (mpi_size (dB.GX ^ dA.X % dA.P)) (dB.GX ^ dA.X % dA.P)))) ∧
        (cryptDhmSecretForNeigh h b sha (some B) rawOfA A.rawGXLen buffB).1 =
          .ret (some (b.sha1
            (beBytes (mpi_size (dB.GX ^ dA.X % dA.P)) (dB.GX ^ dA.X % dA.P)))) ∧
        (b.sha1 (beBytes (mpi_size (dB.GX ^ dA.X % dA.P))
          (dB.GX ^ dA.X % dA.P))).bytes.length = 20) ∧
      (mpi_size (dB.GX ^ dA.X % dA.P) < (A.rawGXLen / 4) * 3 →
        (cryptDhmSecretForNeigh h b sha (some A) rawOfB B.rawGXLen buffA).1 = .ret none ∧
        (cryptDhmSecretForNeigh h b sha (some B) rawOfA A.rawGXLen buffB).1 = .ret none) ∧
      (sha.shaClean = false → A.rawGXLen ≤ h.CRYPT_DHM_MAX_LEN →
        (A.rawGXLen / 4) * 3 ≤ mpi_size (dB.GX ^ dA.X % dA.P) →
        (cryptDhmSecretForNeigh h b sha (some A) rawOfB B.rawGXLen buffA).1 =
          .fatal (-502030) ∧
        (cryptDhmSecretForNeigh h b sha (some B) rawOfA A.rawGXLen buffB).1 =
          .fatal (-502030)) := by
  obtain ⟨A1, p1, hA1, htA⟩ := cryptDhmKeyMakeRec_ret h b rng1 keyType _ _ _ _ _ _ hA
  obtain ⟨B1, p2, hB1, htB⟩ := cryptDhmKeyMakeRec_ret h b rng2 keyType _ _ _ _ _ _ hB
  obtain ⟨P, G, XA, hg, hkt, hL, hP, hXA, hGXA, hodd, hrXA, hAeq⟩ := cryptDhmKeyMakeTry_ok htA
  obtain ⟨P2, G2, XB, hg2, -, -, -, hXB, hGXB, -, hrXB, hBeq⟩ := cryptDhmKeyMakeTry_ok htB
  rw [hg] at hg2
  obtain ⟨rfl, rfl⟩ : P = P2 ∧ G = G2 := by simpa using hg2
  rw [← Option.some.inj hA1] at hAeq
  rw [← Option.some.inj hB1] at hBeq
  subst hAeq hBeq
  simp only at hrA hrB
  rw [cryptDhmPubKeyGetRaw_good hkt hL hGXA] at hrA
  rw [cryptDhmPubKeyGetRaw_good hkt hL hGXB] at hrB
  obtain rfl := Outcome.ret.inj hrA
  obtain rfl := Outcome.ret.inj hrB
  have eA := secret_for_good_key h b sha buffA hkt h256 hg hL hP hXA hGXA hodd hrXA hGXB hrXB
  have eB := secret_for_good_key h b sha buffB hkt h256 hg hL hP hXB hGXB hodd hrXB hGXA hrXA
  have hcomm := pow_mod_comm G XA XB P
  have hKle : mpi_size ((G ^ XB % P) ^ XA % P) ≤ cryptDhmKeyLenByType h keyType := by
    rw [← hP]
    exact mpi_size_mono (Nat.le_of_lt (Nat.mod_lt _ (by omega)))
  have hvals := dhmKeyLen_values h keyType hL
  refine ⟨?_, _, _, rfl, rfl, rfl, rfl, hcomm, hKle, ?_, ?_, ?_, ?_⟩
  all_goals try simp only
  · rw [eA, eB, hcomm]
  · intro s hs
    rw [eA] at hs
    exact ⟨(sharedSecretOf_some hs).1, s.size_eq⟩
  · intro hc hmax hwin
    have hpos : 0 < mpi_size ((G ^ XB % P) ^ XA % P) := by omega
    have hw := (sharedSecretOf_window h b sha hmax hKle hwin hpos).1 hc
    refine ⟨by rw [eA, hw], ?_, CRYPTSHA1_T.size_eq _⟩
    rw [eB, ← hcomm, hw]
  · intro hshort
    have hw := sharedSecretOf_short h b sha hshort
    refine ⟨by rw [eA, hw], ?_⟩
    rw [eB, ← hcomm, hw]
  · intro hc hmax hwin
    have hpos : 0 < mpi_size ((G ^ XB % P) ^ XA % P) := by omega
    have hw := (sharedSecretOf_window h b sha hmax hKle hwin hpos).2 hc
    refine ⟨by rw [eA, hw], ?_⟩
    rw [eB, ← hcomm, hw]

set_option maxRecDepth 100000 in
theorem dh_secret_agreement_witness :
    (16 < 256 ∧
      cryptDhmKeyMake sampleHdr samplePolarssl rngA 16 0 0 = (.ret (some keyA), 1) ∧
      cryptDhmKeyMake sampleHdr samplePolarssl rngB 16 0 0 = (.ret (some keyB), 2) ∧
      cryptDhmPubKeyGetRaw (some keyA) keyA.rawGXLen = .ret rawA ∧
      cryptDhmPubKeyGetRaw (some keyB) keyB.rawGXLen = .ret rawB) ∧
    ((cryptDhmSecretForNeigh sampleHdr samplePolarssl cleanSha (some keyA) rawB keyB.rawGXLen []).1 =
        .ret (some sampleSecret) ∧
      (cryptDhmSecretForNeigh sampleHdr samplePolarssl cleanSha (some keyB) rawA keyA.rawGXLen []).1 =
        .ret (some sampleSecret) ∧
      sampleSecret.bytes.length = 20) ∧
    (cryptDhmSecretForNeigh sampleHdr samplePolarssl cleanSha (some keyA) rawB keyB.rawGXLen []).1 =
      (cryptDhmSecretForNeigh sampleHdr samplePolarssl cleanSha (some keyB) rawA keyA.rawGXLen []).1 :=
  ⟨⟨by decide, by decide!, by decide!, by decide!, by decide!⟩,
   ⟨by decide!, by decide!, sampleSecret.size_eq⟩,
   (dh_secret_agreement sampleHdr samplePolarssl cleanSha rngA rngB 16 0 0 0 0 1 2 keyA keyB
     rawA rawB [] [] (by decide) (by decide!) (by decide!) (by decide!) (by decide!)).1⟩

/-! ## Shared secret: state at the exits, amended -/

theorem cryptDhmSecretForNeigh_ret_handle {h : CryptHdr} {b : Polarssl} {sha : ShaState}
    {myDhm : Option CRYPTDHM_T} {neighRawKey : List Nat} {neighRawKeyLen : Nat}
    {buff : List Nat} {secret : Option CRYPTSHA1_T} {st : SecretState}
    (hr : cryptDhmSecretForNeigh h b sha myDhm neighRawKey neighRawKeyLen buff =
      (.ret secret, st)) :
    ∃ dhm rawGXType rawGXLen,
      myDhm = some { backendKey := some dhm, rawGXType := rawGXType, rawGXLen := rawGXLen } := by
  cases myDhm with
  | none => simp [cryptDhmSecretForNeigh, secretFinish] at hr
  | some key =>
    obtain ⟨backend, rawGXType, rawGXLen⟩ := key
    cases backend with
    | none => simp [cryptDhmSecretForNeigh, secretFinish] at hr
    | some dhm => exact ⟨dhm, rawGXType, rawGXLen, rfl⟩

set_option maxRecDepth 100000 in
/-- C13, as stated, fails on the exits that are not returns: with a dirty
digest context the call on `keyA` with the raw public value of `keyB` aborts on
assertion -502030 inside `cryptShaAtomic`, and at that exit the local buffer
holds the raw shared secret and `GY` and `K` are still set; with a null handle
or a null backend pointer the block after `finish` dereferences the pointer. -/
theorem secret_exit_frame_counterexample :
    ((cryptDhmSecretForNeigh sampleHdr samplePolarssl dirtySha
        (some { backendKey := some dhmA, rawGXType := 16, rawGXLen := 128 })
        rawB 128 (List.replicate 384 0)).1 = .fatal (-502030) ∧
      ¬ (∀ x ∈ (cryptDhmSecretForNeigh sampleHdr samplePolarssl dirtySha
        (some { backendKey := some dhmA, rawGXType := 16, rawGXLen := 128 })
        rawB 128 (List.replicate 384 0)).2.buff, x = 0) ∧
      (cryptDhmSecretForNeigh sampleHdr samplePolarssl dirtySha
        (some { backendKey := some dhmA, rawGXType := 16, rawGXLen := 128 })
        rawB 128 (List.replicate 384 0)).2.myDhm ≠
        some { backendKey := some { dhmA with GY := 0, K := 0 },
               rawGXType := 16, rawGXLen := 128 }) ∧
    (cryptDhmSecretForNeigh sampleHdr samplePolarssl cleanSha none rawB 128
      (List.replicate 384 0)).1 = .segv ∧
    (cryptDhmSecretForNeigh sampleHdr samplePolarssl cleanSha
      (some { backendKey := none, rawGXType := 16, rawGXLen := 128 }) rawB 128
      (List.replicate 384 0)).1 = .segv :=
  ⟨⟨by decide!, by decide!, by decide!⟩, by decide!, by decide!⟩

/-- C13, amended: on every return of `cryptDhmSecretForNeigh`, with a secret or
with `NULL`, the call was made on a pair with a backend, the local buffer is
all zero, the pair's `GY` and `K` are cleared and its type, length, modulus `P`,
generator, private exponent `X` and public value `GX` are unchanged, so that
`cryptDhmPubKeyGetRaw` gives the same result before and after; and a call on a
pair with a backend under a clean digest context does return. -/
theorem secret_exit_frame (h : CryptHdr) (b : Polarssl) (sha : ShaState)
    (myDhm : Option CRYPTDHM_T) (neighRawKey : List Nat) (neighRawKeyLen : Nat)
    (buff : List Nat) :
    (∀ secret st, cryptDhmSecretForNeigh h b sha myDhm neighRawKey neighRawKeyLen buff =
        (.ret secret, st) →
      ∃ dhm rawGXType rawGXLen,
        myDhm = some { backendKey := some dhm, rawGXType := rawGXType, rawGXLen := rawGXLen } ∧
        st.buff = List.replicate h.CRYPT_DHM_MAX_LEN 0 ∧
        (∀ x ∈ st.buff, x = 0) ∧
        st.myDhm = some { backendKey := some { dhm with GY := 0, K := 0 },
                          rawGXType := rawGXType, rawGXLen := rawGXLen } ∧
        ∀ buffLen, cryptDhmPubKeyGetRaw st.myDhm buffLen = cryptDhmPubKeyGetRaw myDhm buffLen) ∧
    (∀ dhm rawGXType rawGXLen,
      myDhm = some { backendKey := some dhm, rawGXType := rawGXType, rawGXLen := rawGXLen } →
      sha.shaClean = true →
      ∃ secret st, cryptDhmSecretForNeigh h b sha myDhm neighRawKey neighRawKeyLen buff =
        (.ret secret, st)) := by
  constructor
  · intro secret st hr
    obtain ⟨dhm, rawGXType, rawGXLen, rfl⟩ := cryptDhmSecretForNeigh_ret_handle hr
    obtain ⟨h1, h2⟩ := cryptDhmSecretForNeigh_ret h b sha dhm rawGXType rawGXLen neighRawKey
      neighRawKeyLen buff secret st hr
    refine ⟨dhm, rawGXType, rawGXLen, rfl, h1, ?_, h2, ?_⟩
    · intro x hx
      rw [h1] at hx
      exact (List.mem_replicate.1 hx).2
    · intro buffLen
      rw [h2]
      rfl
  · rintro dhm rawGXType rawGXLen rfl hc
    exact cryptDhmSecretForNeigh_returns h b sha dhm rawGXType rawGXLen neighRawKey
      neighRawKeyLen buff hc

set_option maxRecDepth 100000 in
theorem secret_exit_frame_witness :
    cryptDhmSecretForNeigh sampleHdr samplePolarssl cleanSha
        (some { backendKey := some dhmA, rawGXType := 16, rawGXLen := 128 }) rawB 128 [5, 5] =
      (.ret (some sampleSecret), sampleExit) ∧
    (∃ (dhm : dhm_context) (rawGXType rawGXLen : Nat),
      some ({ backendKey := some dhmA, rawGXType := 16, rawGXLen := 128 } : CRYPTDHM_T) =
        some { backendKey := some dhm, rawGXType := rawGXType, rawGXLen := rawGXLen } ∧
      sampleExit.buff = List.replicate sampleHdr.CRYPT_DHM_MAX_LEN 0 ∧
      (∀ x ∈ sampleExit.buff, x = 0) ∧
      sampleExit.myDhm = some { backendKey := some { dhm with GY := 0, K := 0 },
                                rawGXType := rawGXType, rawGXLen := rawGXLen } ∧
      ∀ buffLen, cryptDhmPubKeyGetRaw sampleExit.myDhm buffLen =
        cryptDhmPubKeyGetRaw (some { backendKey := some dhmA, rawGXType := 16, rawGXLen := 128 })
          buffLen) ∧
    (cleanSha.shaClean = true ∧
      ∃ secret st, cryptDhmSecretForNeigh sampleHdr samplePolarssl cleanSha
        (some { backendKey := some ⟨128, 23, 5, 6, 8, 77, 99⟩, rawGXType := 16, rawGXLen := 128 })
        [1, 2, 3] 127 [9, 9, 9] = (.ret secret, st)) :=
  ⟨by decide!,
   (secret_exit_frame sampleHdr samplePolarssl cleanSha
      (some { backendKey := some dhmA, rawGXType := 16, rawGXLen := 128 }) rawB 128 [5, 5]).1
      (some sampleSecret) sampleExit (by decide!),
   ⟨rfl,
    (secret_exit_frame sampleHdr samplePolarssl cleanSha
      (some { backendKey := some ⟨128, 23, 5, 6, 8, 77, 99⟩, rawGXType := 16, rawGXLen := 128 })
      [1, 2, 3] 127 [9, 9, 9]).2 ⟨128, 23, 5, 6, 8, 77, 99⟩ 16 128 rfl rfl⟩⟩

end Crypt
